import Mathlib

/-!
# Verification of the SIGACTS backend data engine

Shallow embedding of the ingestion-and-indexing engine and the aggregation
routines of the SIGACTS backend (`src/data-processor.js` together with the
`DataProcessor` variant embedded in `src/server.js`), and proofs of the
spec's claims about them.

Conventions of the embedding:
* JavaScript strings are Lean `String`s.  The JS string helpers used by the
  code (`split`, `includes`, `padStart`, the default `Array.sort()`
  comparator) are re-implemented structurally over `List Char` so that every
  definition evaluates by `decide`/`rfl`.  The JS default sort comparator
  compares UTF-16 code units; the embedding compares code points, which
  agrees on all the ASCII data involved here.
* A CSV row field that may be absent is an `Option String` (`none` models a
  missing column, i.e. JS `undefined`).
* JS `Map` and plain objects keyed by strings are insertion-ordered
  association lists, which is the enumeration order `Map` guarantees and the
  order `for...in` uses for non-array-index string keys.
* JS `Set` is an insertion-ordered duplicate-free list.
* The `parseFloat` position fields are carried as the raw source text:
  the numeric (IEEE-754) value is never consumed by any indexed or
  aggregated computation, so the embedding does not model float parsing.
-/

namespace SigActs

/-! ## JS string primitives -/

/-- One step of JS `String.prototype.split(sep)` over the character list:
accumulates the current token and breaks at each separator. -/
def splitOnCharAux (sep : Char) : List Char → List Char → List (List Char)
  | [], acc => [acc.reverse]
  | c :: cs, acc =>
    if c = sep then acc.reverse :: splitOnCharAux sep cs []
    else splitOnCharAux sep cs (c :: acc)

/-- JS `s.split(sep)` for a one-character separator: `"".split(sep) = [""]`,
separators at the ends produce empty tokens. -/
def jsSplit (s : String) (sep : Char) : List String :=
  (splitOnCharAux sep s.toList []).map List.asString

/-- JS `s.includes(c)` for a one-character needle. -/
def containsChar (s : String) (c : Char) : Bool :=
  s.toList.contains c

/-- JS `v || d` for a possibly-missing string `v`: the default is taken when
the field is absent (`undefined`) or the empty string (both falsy). -/
def jsOr (v : Option String) (d : String) : String :=
  match v with
  | none => d
  | some s => if s = "" then d else s

/-- JS `s.padStart(2, '0')`. -/
def padStart2 (s : String) : String :=
  if s.toList.length < 2 then
    (List.replicate (2 - s.toList.length) '0').asString ++ s
  else s

/-! ## Data model -/

/-- A raw CSV row as delivered by `csv-parser`: each referenced column is a
string when present, `none` when the column is missing. -/
structure Row where
  date_time_occ : Option String
  mgrs_Y : Option String
  mgrs_X : Option String
  incidentType : Option String
  incidentCategory : Option String
  rowTargetCategory : Option String
  target : Option String
  force_type : Option String
  city : Option String
  rowProvince : Option String
deriving DecidableEq, Repr

/-- An ingested incident record (the object literal built per row in
`loadData`).  `lat`/`lng` carry the raw `mgrs_Y`/`mgrs_X` text: the code
stores `parseFloat` of them, and no later computation reads the numeric
value, so the float conversion is outside the model. -/
structure Incident where
  lat : Option String
  lng : Option String
  date : String
  type : String
  category : String
  targetCategory : String
  target : String
  forceType : String
  city : String
  province : String
  time : String
deriving DecidableEq, Repr

/-- Date-normalization block of `loadData` (`server.js` lines 219-229):
a `/`-separated date splitting into exactly three parts is rewritten
`M/D/YYYY → YYYY-MM-DD` with month and day zero-padded to width 2;
everything else passes through unchanged. -/
def formatDate (datePart : String) : String :=
  if containsChar datePart '/' then
    let parts := jsSplit datePart '/'
    if parts.length = 3 then
      let month := padStart2 (parts.getD 0 "")
      let day := padStart2 (parts.getD 1 "")
      let year := parts.getD 2 ""
      year ++ "-" ++ month ++ "-" ++ day
    else datePart
  else datePart

/-- The per-row record constructor of `loadData`: split the combined
timestamp on the first space into date and time portions, normalize the
date, and default every missing or empty classification field. -/
def mkIncident (row : Row) : Incident :=
  let dateTime := jsOr row.date_time_occ ""
  let datePart := (jsSplit dateTime ' ').getD 0 ""
  let timePart := (jsSplit dateTime ' ').getD 1 ""
  { lat := row.mgrs_Y
    lng := row.mgrs_X
    date := formatDate datePart
    type := jsOr row.incidentType "Unknown"
    category := jsOr row.incidentCategory "N/A"
    targetCategory := jsOr row.rowTargetCategory "N/A"
    target := jsOr row.target "N/A"
    forceType := jsOr row.force_type "N/A"
    city := jsOr row.city "N/A"
    province := jsOr row.rowProvince "N/A"
    time := timePart }

/-! ## Index structures -/

/-- JS `Set.add`: append the element unless already present (sets iterate in
insertion order). -/
def insertSet (s : List String) (x : String) : List String :=
  if x ∈ s then s else s ++ [x]

/-- Insert a record into the date index (`Map` from date to incident array):
push onto the existing bucket, or append a new singleton bucket. -/
def indexInsert (m : List (String × List Incident)) (k : String) (i : Incident) :
    List (String × List Incident) :=
  match m with
  | [] => [(k, [i])]
  | (k', b) :: rest =>
    if k' = k then (k', b ++ [i]) :: rest
    else (k', b) :: indexInsert rest k i

/-- `Map.get(date)` with the `|| []` fallback of `getIncidents`. -/
def lookupBucket (m : List (String × List Incident)) (d : String) : List Incident :=
  match m with
  | [] => []
  | (k, b) :: rest => if k = d then b else lookupBucket rest d

/-! ## Sorting (JS default `Array.sort()` comparator on strings) -/

/-- Lexicographic `≤` on character lists by code point (the JS default sort
comparator, which is lexicographic on code units; identical on ASCII). -/
def lexLeChars : List Char → List Char → Bool
  | [], _ => true
  | _ :: _, [] => false
  | a :: as, b :: bs =>
    if a.toNat < b.toNat then true
    else if b.toNat < a.toNat then false
    else lexLeChars as bs

/-- Lexicographic `≤` on strings. -/
def lexLe (s t : String) : Bool :=
  lexLeChars s.toList t.toList

/-- Insert into a list sorted by `lexLe` (one step of insertion sort). -/
def insertLe (x : String) : List String → List String
  | [] => [x]
  | y :: ys => if lexLe x y then x :: y :: ys else y :: insertLe x ys

/-- Stable sort by the JS default string comparator. -/
def sortStrings (l : List String) : List String :=
  l.foldr insertLe []

/-! ## Engine state and load -/

/-- The `DataProcessor` state after `loadData` has completed. -/
structure ProcState where
  allIncidents : List Incident
  dateIndex : List (String × List Incident)
  types : List String
  categories : List String
  provinces : List String
  dates : List String
  iraqBoundary : Option String
deriving Repr

/-- Processing of a single parsed CSV row inside `loadData`: build the
incident, append it to the full list, index it by its normalized date, and
add its classification values to the distinct-value sets. -/
def loadStep (st : ProcState) (row : Row) : ProcState :=
  let inc := mkIncident row
  { st with
    allIncidents := st.allIncidents ++ [inc]
    dateIndex := indexInsert st.dateIndex inc.date inc
    types := insertSet st.types inc.type
    categories := insertSet st.categories inc.category
    provinces := insertSet st.provinces inc.province }

/-- The empty engine state (the `DataProcessor` constructor). -/
def initState : ProcState :=
  { allIncidents := []
    dateIndex := []
    types := []
    categories := []
    provinces := []
    dates := []
    iraqBoundary := none }

/-- `loadData`: one pass over the record stream, then the sorted date list
is computed from the date-index keys.  The optional boundary document is
modelled as an already-read optional blob (its file I/O is outside the
engine). -/
def loadData (rows : List Row) (boundary : Option String) : ProcState :=
  let st := rows.foldl loadStep initState
  { st with
    dates := sortStrings (st.dateIndex.map Prod.fst)
    iraqBoundary := boundary }

/-! ## Query operations -/

/-- `getDates()`. -/
def getDates (st : ProcState) : List String :=
  st.dates

/-- `getBoundary()`: the blob as loaded, `none` when absent. -/
def getBoundary (st : ProcState) : Option String :=
  st.iraqBoundary

/-- The optional query-string filters of `getIncidents`. -/
structure Filters where
  type : Option String
  category : Option String
  province : Option String
deriving DecidableEq, Repr

/-- The empty filter object `{}`. -/
def noFilters : Filters := { type := none, category := none, province := none }

/-- One filter guard of `getIncidents`: `filters.f && filters.f !== 'all'`.
By JS truthiness the filter is applied only when the value is present,
non-empty and not the sentinel `"all"`. -/
def filterBy (f : Incident → String) (v : Option String) (l : List Incident) :
    List Incident :=
  match v with
  | none => l
  | some s => if s = "" ∨ s = "all" then l else l.filter (fun i => f i = s)

/-- `getIncidents(date, filters)`: the date bucket (empty when the date is
unknown), narrowed by the type, category and province guards in that
order. -/
def getIncidents (st : ProcState) (d : String) (fl : Filters) : List Incident :=
  filterBy (·.province) fl.province
    (filterBy (·.category) fl.category
      (filterBy (·.type) fl.type (lookupBucket st.dateIndex d)))

/-- `getMetadata()`: the three distinct-value sets, each sorted. -/
def getMetadata (st : ProcState) : List String × List String × List String :=
  (sortStrings st.types, sortStrings st.categories, sortStrings st.provinces)

/-! ## Canonical dates and their calendar value -/

/-- An ASCII decimal digit, tested on the code point. -/
def isDigitChar (c : Char) : Bool :=
  48 ≤ c.toNat && c.toNat ≤ 57

/-- The digit prefix of a character list: JS `parseInt`'s digit scan.
No leading digit means `NaN`, modelled as `none`. -/
def parseDigits (cs : List Char) : Option Nat :=
  let ds := cs.takeWhile (fun c => isDigitChar c)
  if ds.isEmpty then none else some (ds.foldl (fun n c => n * 10 + (c.toNat - 48)) 0)

/-- JS `parseInt` in base 10: skip leading whitespace, optional sign, then
the longest digit prefix; `NaN` (no digits) is `none`.  (The hexadecimal
`0x` special case never applies to clock-time text and is not modelled.) -/
def jsParseInt (s : String) : Option Int :=
  let cs := s.toList.dropWhile (fun c => c == ' ' || c == '\t' || c == '\n' || c == '\r')
  match cs with
  | '-' :: rest => (parseDigits rest).map (fun n => -(n : Int))
  | '+' :: rest => (parseDigits rest).map (fun n => (n : Int))
  | _ => (parseDigits cs).map (fun n => (n : Int))

/-- The hour component used by `getRadarData`:
`parseInt(incident.time.split(':')[0])`. -/
def hourOf (time : String) : Option Int :=
  jsParseInt ((jsSplit time ':').getD 0 "")

/-! ## Radar aggregation -/

/-- One radar histogram: the seven fixed clock-hour buckets in their fixed
order, plus the `other` slot.  `other` models the `radarData[''] ++`
increment the code performs when the parsed hour falls outside every bucket
(JS then stores `NaN` under the extra key `''`; the model records how often
that slot was hit, which suffices for every counting statement about the
seven buckets). -/
structure RadarHist where
  earlyNight : Nat
  earlyMorning : Nat
  midMorning : Nat
  earlyAfternoon : Nat
  lateAfternoon : Nat
  evening : Nat
  lateNight : Nat
  other : Nat
deriving DecidableEq, Repr

/-- The sum of the seven fixed bucket counters (not `other`). -/
def RadarHist.sum7 (h : RadarHist) : Nat :=
  h.earlyNight + h.earlyMorning + h.midMorning + h.earlyAfternoon +
    h.lateAfternoon + h.evening + h.lateNight

/-- All-zero histogram (the object literals at the top of `getRadarData`). -/
def initHist : RadarHist :=
  ⟨0, 0, 0, 0, 0, 0, 0, 0⟩

/-- The bucket-selection ladder of `getRadarData` followed by the increment
of the selected slot. -/
def bump (h : RadarHist) (hour : Option Int) : RadarHist :=
  match hour with
  | none => { h with other := h.other + 1 }
  | some n =>
    if 0 ≤ n ∧ n < 4 then { h with earlyNight := h.earlyNight + 1 }
    else if 4 ≤ n ∧ n < 9 then { h with earlyMorning := h.earlyMorning + 1 }
    else if 9 ≤ n ∧ n < 12 then { h with midMorning := h.midMorning + 1 }
    else if 12 ≤ n ∧ n < 15 then { h with earlyAfternoon := h.earlyAfternoon + 1 }
    else if 15 ≤ n ∧ n < 18 then { h with lateAfternoon := h.lateAfternoon + 1 }
    else if 18 ≤ n ∧ n < 22 then { h with evening := h.evening + 1 }
    else if 22 ≤ n ∧ n < 24 then { h with lateNight := h.lateNight + 1 }
    else { h with other := h.other + 1 }

/-- The per-record step of `getRadarData`: skip empty times, then count the
record into the hour bucket of its type's histogram — enemy action into the
first, explosive hazard into the second, any other type into neither. -/
def radarStep (acc : RadarHist × RadarHist) (i : Incident) : RadarHist × RadarHist :=
  if i.time = "" then acc
  else
    if i.type = "Enemy Action" then (bump acc.1 (hourOf i.time), acc.2)
    else if i.type = "Explosive Hazard" then (acc.1, bump acc.2 (hourOf i.time))
    else acc

/-- `getRadarData()`: the enemy-action and explosive-hazard time-of-day
histograms over the full record list. -/
def getRadarData (incidents : List Incident) : RadarHist × RadarHist :=
  incidents.foldl radarStep (initHist, initHist)

/-! ## Treemap aggregation -/

/-- Increment the per-category counter inside one type's group (a plain JS
object; key enumeration is insertion order for non-array-index keys). -/
def bumpCat : List (String × Nat) → String → List (String × Nat)
  | [], c => [(c, 1)]
  | (c', n) :: rest, c =>
    if c' = c then (c', n + 1) :: rest else (c', n) :: bumpCat rest c

/-- Increment the `(type, category)` counter in the two-level object. -/
def bumpType : List (String × List (String × Nat)) → String → String →
    List (String × List (String × Nat))
  | [], t, c => [(t, [(c, 1)])]
  | (t', m) :: rest, t, c =>
    if t' = t then (t', bumpCat m c) :: rest else (t', m) :: bumpType rest t c

/-- `getTreemapData()`: the two-level `(type, category)` counts as built by
the counting loop, groups in first-seen type order and pairs in first-seen
category order (the `for...in` enumeration order of the intermediate
objects).  The ApexCharts re-wrapping (`name`/`data`/`x`/`y` field labels)
adds no information and is left as the bare pairs. -/
def getTreemapData (incidents : List Incident) : List (String × List (String × Nat)) :=
  incidents.foldl (fun acc i => bumpType acc i.type i.category) []

/-- The count stored in one type's group for a category (0 when absent). -/
def catCount (g : List (String × Nat)) (c : String) : Nat :=
  match g with
  | [] => 0
  | (c', n) :: rest => if c' = c then n else catCount rest c

/-- The count stored in the treemap for a `(type, category)` pair (0 when
the pair never occurred). -/
def treemapCount (m : List (String × List (String × Nat))) (t c : String) : Nat :=
  match m with
  | [] => 0
  | (t', g) :: rest => if t' = t then catCount g c else treemapCount rest t c

/-- The grand total of all treemap counts. -/
def treemapTotal (m : List (String × List (String × Nat))) : Nat :=
  (m.map (fun g => (g.2.map Prod.snd).sum)).sum

/-- The category names of one type's group, in stored order. -/
def treemapCats (m : List (String × List (String × Nat))) (t : String) : List String :=
  match m with
  | [] => []
  | (t', g) :: rest => if t' = t then g.map Prod.fst else treemapCats rest t

/-! ## Heatmap aggregation -/

/-- The per-date record count of `getHeatmapData` (the `dateCounts` object),
accumulated over records with a non-empty date. -/
def dateCount (incidents : List Incident) (d : String) : Nat :=
  (incidents.filter (fun i => i.date ≠ "" && i.date = d)).length

/-- `getHeatmapData()` of `data-processor.js`: the distinct non-empty dates
in sorted order, paired positionally with their per-date counts.
`[...new Set(allDates)]` enumerates first occurrences in order, modelled by
the `insertSet` fold; the surrounding `.sort()` calls are the JS default
string sort.  (`dateCounts[date] || 0` is `dateCount` directly: every
enumerated date occurs at least once.) -/
def getHeatmapData (incidents : List Incident) : List String × List Nat :=
  let allDates := sortStrings ((incidents.map (fun i => i.date)).filter (fun d => d ≠ ""))
  let uniqueDates := sortStrings (allDates.foldl insertSet [])
  (uniqueDates, uniqueDates.map (fun d => dateCount incidents d))

/-! ## Auxiliary definitions used only in claim statements -/

/-- A record the enemy-action radar histogram counts: enemy-action type and
non-empty time. -/
def isEA (i : Incident) : Bool :=
  i.type = "Enemy Action" && i.time ≠ ""

/-- A record the explosive-hazard radar histogram counts. -/
def isEH (i : Incident) : Bool :=
  i.type = "Explosive Hazard" && i.time ≠ ""

/-- A record of either radar type with non-empty time. -/
def isRadarRec (i : Incident) : Bool :=
  (i.type = "Enemy Action" || i.type = "Explosive Hazard") && i.time ≠ ""

/-- The raw date portion of a row's combined timestamp, before
normalization (`dateTime.split(' ')[0]`). -/
def rawDatePart (row : Row) : String :=
  (jsSplit (jsOr row.date_time_occ "") ' ').getD 0 ""

/-- A parsed hour that lands inside the seven radar buckets, i.e. a
well-formed clock hour. -/
def validHour (v : Option Int) : Bool :=
  match v with
  | none => false
  | some h => 0 ≤ h && h < 24

/-- Example row with a `/`-separated timestamp (the `M/D/YYYY` source
encoding). -/
def rowMDY : Row :=
  { date_time_occ := some "12/5/2007 14:23:00"
    mgrs_Y := some "33.3128"
    mgrs_X := some "44.3615"
    incidentType := some "Enemy Action"
    incidentCategory := some "Direct Fire"
    rowTargetCategory := some "Coalition Forces"
    target := some "US Patrol"
    force_type := some "CF"
    city := some "Baghdad"
    rowProvince := some "Baghdad" }

/-- Example row with an already-canonical `-`-separated timestamp, a
missing type column and an empty category. -/
def rowISO : Row :=
  { date_time_occ := some "2008-01-02 03:00:00"
    mgrs_Y := none
    mgrs_X := none
    incidentType := none
    incidentCategory := some ""
    rowTargetCategory := none
    target := none
    force_type := none
    city := none
    rowProvince := some "Anbar" }

/-- Example explosive-hazard row (late-night hour). -/
def rowEH : Row :=
  { date_time_occ := some "12/5/2007 22:45:00"
    mgrs_Y := some "not-a-number"
    mgrs_X := some "44.1"
    incidentType := some "Explosive Hazard"
    incidentCategory := some "IED Found/Cleared"
    rowTargetCategory := none
    target := none
    force_type := none
    city := none
    rowProvince := some "Baghdad" }

/-- First-occurrence-order deduplication (JS `Set` iteration order). -/
def firstSeen (l : List String) : List String :=
  l.foldl insertSet []

/-- A canonical numeric array-index string (`"0"`, `"1"`, `"42"`, ...).
For such keys JS `for...in` deviates from insertion order, so the
first-seen-order statements about the treemap are made under the hypothesis
that no type or category name has this form (the 2^32-1 upper bound of the
JS definition is immaterial to the order statements and not modelled). -/
def isArrayIndex (s : String) : Bool :=
  match s.toList with
  | [] => false
  | ['0'] => true
  | c :: cs => isDigitChar c && c != '0' && cs.all (fun d => isDigitChar d)

/-- The spec's narrowing rule for `lookupIncidents`, written from the
spec's words for refinement comparison: a filter is applied unless its
value is absent or the sentinel `"all"` (the spec does not exempt the empty
string). -/
def specFilterPasses (v : Option String) (field : String) : Bool :=
  match v with
  | none => true
  | some s => if s = "all" then true else field = s

/-- `lookupIncidents` as claimed: the bucket narrowed by the AND of the
spec's filters. -/
def specLookupIncidents (st : ProcState) (d : String) (fl : Filters) : List Incident :=
  (lookupBucket st.dateIndex d).filter (fun i =>
    specFilterPasses fl.type i.type && specFilterPasses fl.category i.category &&
      specFilterPasses fl.province i.province)

/-- The amended narrowing rule: a filter whose value is absent, empty, or
`"all"` is not applied (JS truthiness makes the empty string falsy). -/
def amendedFilterPasses (v : Option String) (field : String) : Bool :=
  match v with
  | none => true
  | some s => if s = "" ∨ s = "all" then true else field = s

/-- `lookupIncidents` as amended: the bucket narrowed by the AND of the
amended filters. -/
def amendedLookupIncidents (st : ProcState) (d : String) (fl : Filters) : List Incident :=
  (lookupBucket st.dateIndex d).filter (fun i =>
    amendedFilterPasses fl.type i.type && amendedFilterPasses fl.category i.category &&
      amendedFilterPasses fl.province i.province)

/-- The total number of records stored across all buckets of the date
index. -/
def totalBuckets (m : List (String × List Incident)) : Nat :=
  (m.map (fun kv => kv.2.length)).sum

/-- The numeric value of a digit character. -/
def dVal (c : Char) : Nat :=
  c.toNat - 48

/-- The number denoted by a list of digit characters (most significant
first). -/
def digitsVal (l : List Char) : Nat :=
  l.foldl (fun n c => n * 10 + dVal c) 0

/-- The `YYYY-MM-DD` pattern: exactly ten characters in 4-2-2 digit groups
separated by `'-'`. -/
def isCanonicalDate (s : String) : Bool :=
  match s.toList with
  | [y1, y2, y3, y4, s1, m1, m2, s2, d1, d2] =>
    isDigitChar y1 && isDigitChar y2 && isDigitChar y3 && isDigitChar y4 &&
    (s1 == '-') && isDigitChar m1 && isDigitChar m2 && (s2 == '-') &&
    isDigitChar d1 && isDigitChar d2
  | _ => false

/-- The calendar value `year * 10000 + month * 100 + day` of a canonical
date string; `0` on anything not of the canonical shape.  Two canonical
dates compare as calendar dates exactly when these values compare. -/
def dateVal (s : String) : Nat :=
  match s.toList with
  | [y1, y2, y3, y4, _, m1, m2, _, d1, d2] =>
    digitsVal [y1, y2, y3, y4] * 10000 + digitsVal [m1, m2] * 100 +
      digitsVal [d1, d2]
  | _ => 0

/-! ## Lemmas: characters and digit values -/

lemma char_toNat_inj {a b : Char} (h : a.toNat = b.toNat) : a = b :=
  Char.eq_of_val_eq (UInt32.toNat.inj h)

lemma digitsVal_foldl (cs : List Char) :
    ∀ n, cs.foldl (fun n c => n * 10 + dVal c) n = n * 10 ^ cs.length + digitsVal cs := by
  induction cs with
  | nil => intro n; simp [digitsVal]
  | cons c cs ih =>
    intro n
    have h1 : digitsVal (c :: cs) = dVal c * 10 ^ cs.length + digitsVal cs := by
      simp only [digitsVal, List.foldl_cons]
      rw [ih (0 * 10 + dVal c)]
      ring_nf
      simp [digitsVal]
    simp only [List.foldl_cons]
    rw [ih (n * 10 + dVal c), h1, List.length_cons, pow_succ]
    ring

lemma digitsVal_cons (c : Char) (cs : List Char) :
    digitsVal (c :: cs) = dVal c * 10 ^ cs.length + digitsVal cs := by
  simp only [digitsVal, List.foldl_cons]
  rw [digitsVal_foldl cs (0 * 10 + dVal c)]
  ring_nf
  simp [digitsVal]

lemma dVal_le_nine {c : Char} (h : isDigitChar c = true) : dVal c ≤ 9 := by
  simp only [isDigitChar, Bool.and_eq_true, decide_eq_true_eq] at h
  simp only [dVal]
  omega

lemma digitsVal_lt {l : List Char} (h : ∀ c ∈ l, isDigitChar c = true) :
    digitsVal l < 10 ^ l.length := by
  induction l with
  | nil => simp [digitsVal]
  | cons c cs ih =>
    have hc : dVal c ≤ 9 := dVal_le_nine (h c (List.mem_cons_self c cs))
    have hcs : digitsVal cs < 10 ^ cs.length :=
      ih (fun x hx => h x (List.mem_cons_of_mem c hx))
    rw [digitsVal_cons, List.length_cons, pow_succ]
    calc dVal c * 10 ^ cs.length + digitsVal cs
        < dVal c * 10 ^ cs.length + 10 ^ cs.length := by omega
      _ = (dVal c + 1) * 10 ^ cs.length := by ring
      _ ≤ 10 * 10 ^ cs.length := by
          exact Nat.mul_le_mul_right _ (by omega)
      _ = 10 ^ cs.length * 10 := by ring

/-! ## Lemmas: the lexicographic comparator -/

lemma lexLeChars_total : ∀ l1 l2 : List Char,
    lexLeChars l1 l2 = true ∨ lexLeChars l2 l1 = true
  | [], _ => Or.inl rfl
  | _ :: _, [] => Or.inr rfl
  | a :: as, b :: bs => by
    rcases Nat.lt_trichotomy a.toNat b.toNat with h | h | h
    · left; simp [lexLeChars, h]
    · rcases lexLeChars_total as bs with h' | h'
      · left; simp [lexLeChars, h, Nat.lt_irrefl, h']
      · right; simp [lexLeChars, h, Nat.lt_irrefl, h']
    · right; simp [lexLeChars, h]

lemma lexLeChars_trans : ∀ l1 l2 l3 : List Char,
    lexLeChars l1 l2 = true → lexLeChars l2 l3 = true → lexLeChars l1 l3 = true
  | [], _, _, _, _ => rfl
  | _ :: _, [], _, h1, _ => by simp [lexLeChars] at h1
  | _ :: _, _ :: _, [], _, h2 => by simp [lexLeChars] at h2
  | a :: as, b :: bs, c :: cs, h1, h2 => by
    simp only [lexLeChars] at h1 h2 ⊢
    by_cases hab : a.toNat < b.toNat
    · by_cases hbc : b.toNat < c.toNat
      · have hac : a.toNat < c.toNat := by omega
        simp [hac]
      · by_cases hcb : c.toNat < b.toNat
        · simp [hbc, hcb] at h2
        · have hac : a.toNat < c.toNat := by omega
          simp [hac]
    · by_cases hba : b.toNat < a.toNat
      · simp [hab, hba] at h1
      · by_cases hbc : b.toNat < c.toNat
        · have hac : a.toNat < c.toNat := by omega
          simp [hac]
        · by_cases hcb : c.toNat < b.toNat
          · simp [hbc, hcb] at h2
          · have hac : ¬ a.toNat < c.toNat := by omega
            have hca : ¬ c.toNat < a.toNat := by omega
            simp only [hab, hba, ite_false, if_neg, if_false] at h1
            simp only [hbc, hcb, ite_false, if_neg, if_false] at h2
            simp only [hac, hca, ite_false, if_neg, if_false]
            exact lexLeChars_trans as bs cs h1 h2

lemma lexLeChars_antisymm : ∀ l1 l2 : List Char,
    lexLeChars l1 l2 = true → lexLeChars l2 l1 = true → l1 = l2
  | [], [], _, _ => rfl
  | [], _ :: _, _, h2 => by simp [lexLeChars] at h2
  | _ :: _, [], h1, _ => by simp [lexLeChars] at h1
  | a :: as, b :: bs, h1, h2 => by
    simp only [lexLeChars] at h1 h2
    by_cases hab : a.toNat < b.toNat
    · by_cases hba : b.toNat < a.toNat
      · omega
      · simp [hab, hba] at h2
    · by_cases hba : b.toNat < a.toNat
      · simp [hab, hba] at h1
      · have hab' : a = b := char_toNat_inj (by omega)
        subst hab'
        simp only [Nat.lt_irrefl, ite_false, if_neg, if_false] at h1 h2
        rw [lexLeChars_antisymm as bs h1 h2]

lemma lexLe_total (s t : String) : lexLe s t = true ∨ lexLe t s = true :=
  lexLeChars_total s.toList t.toList

lemma lexLe_trans {s t u : String} (h1 : lexLe s t = true) (h2 : lexLe t u = true) :
    lexLe s u = true :=
  lexLeChars_trans s.toList t.toList u.toList h1 h2

lemma lexLe_antisymm {s t : String} (h1 : lexLe s t = true) (h2 : lexLe t s = true) :
    s = t :=
  String.toList_inj.mp (lexLeChars_antisymm s.toList t.toList h1 h2)

/-- Comparing two lists that share an equal-length prefix position by
position: the comparison is decided by the prefixes when they differ, and
delegates to the tails when they agree. -/
lemma lexLeChars_append : ∀ p1 p2 r1 r2 : List Char, p1.length = p2.length →
    lexLeChars (p1 ++ r1) (p2 ++ r2) =
      if p1 = p2 then lexLeChars r1 r2 else lexLeChars p1 p2
  | [], [], r1, r2, _ => by simp
  | [], _ :: _, _, _, h => by simp at h
  | _ :: _, [], _, _, h => by simp at h
  | a :: p1, b :: p2, r1, r2, h => by
    have hlen : p1.length = p2.length := by simpa using h
    rcases Nat.lt_trichotomy a.toNat b.toNat with hab | hab | hab
    · have hne : a ≠ b := fun he => by subst he; omega
      simp [lexLeChars, hab, hne]
    · have he : a = b := char_toNat_inj hab
      subst he
      simp only [List.cons_append, lexLeChars, Nat.lt_irrefl, ite_false, if_neg, if_false]
      simp only [List.append_eq]
      rw [lexLeChars_append p1 p2 r1 r2 hlen]
      by_cases hp : p1 = p2
      · simp [hp]
      · have hne : a :: p1 ≠ a :: p2 := by
          intro he
          exact hp (by injection he)
        simp [hp, hne]
    · have hne : a ≠ b := fun he => by subst he; omega
      have hnab : ¬ a.toNat < b.toNat := by omega
      simp [lexLeChars, hab, hnab, hne]

/-- Strict comparison of equal-length digit strings agrees with the numeric
order of their values. -/
lemma lexLeChars_digits_lt : ∀ l1 l2 : List Char, l1.length = l2.length →
    (∀ c ∈ l1, isDigitChar c = true) → (∀ c ∈ l2, isDigitChar c = true) →
    lexLeChars l1 l2 = true → l1 ≠ l2 → digitsVal l1 < digitsVal l2
  | [], [], _, _, _, _, hne => absurd rfl hne
  | [], _ :: _, h, _, _, _, _ => by simp at h
  | _ :: _, [], h, _, _, _, _ => by simp at h
  | a :: as, b :: bs, h, hd1, hd2, hle, hne => by
    have hlen : as.length = bs.length := by simpa using h
    have hda : isDigitChar a = true := hd1 a (List.mem_cons_self a as)
    have hdb : isDigitChar b = true := hd2 b (List.mem_cons_self b bs)
    have hva : digitsVal as < 10 ^ as.length :=
      digitsVal_lt (fun c hc => hd1 c (List.mem_cons_of_mem a hc))
    have hvb : digitsVal bs < 10 ^ bs.length :=
      digitsVal_lt (fun c hc => hd2 c (List.mem_cons_of_mem b hc))
    rw [digitsVal_cons, digitsVal_cons, hlen]
    rcases Nat.lt_trichotomy a.toNat b.toNat with hab | hab | hab
    · have hd : dVal a < dVal b := by
        simp only [isDigitChar, Bool.and_eq_true, decide_eq_true_eq] at hda hdb
        simp only [dVal]
        omega
      calc dVal a * 10 ^ bs.length + digitsVal as
          < dVal a * 10 ^ bs.length + 10 ^ bs.length := by rw [← hlen]; omega
        _ = (dVal a + 1) * 10 ^ bs.length := by ring
        _ ≤ dVal b * 10 ^ bs.length := Nat.mul_le_mul_right _ (by omega)
        _ ≤ dVal b * 10 ^ bs.length + digitsVal bs := Nat.le_add_right _ _
    · have he : a = b := char_toNat_inj hab
      subst he
      simp only [lexLeChars, Nat.lt_irrefl, ite_false, if_neg, if_false] at hle
      have hne' : as ≠ bs := fun he => hne (by rw [he])
      have := lexLeChars_digits_lt as bs hlen
        (fun c hc => hd1 c (List.mem_cons_of_mem a hc))
        (fun c hc => hd2 c (List.mem_cons_of_mem a hc)) hle hne'
      omega
    · have hnab : ¬ a.toNat < b.toNat := by omega
      simp [lexLeChars, hab, hnab] at hle

/-- Shape extraction from the canonical-date pattern. -/
lemma isCanonicalDate_elim {s : String} (h : isCanonicalDate s = true) :
    ∃ y1 y2 y3 y4 m1 m2 d1 d2 : Char,
      s.toList = [y1, y2, y3, y4, '-', m1, m2, '-', d1, d2] ∧
      isDigitChar y1 = true ∧ isDigitChar y2 = true ∧ isDigitChar y3 = true ∧
      isDigitChar y4 = true ∧ isDigitChar m1 = true ∧ isDigitChar m2 = true ∧
      isDigitChar d1 = true ∧ isDigitChar d2 = true := by
  unfold isCanonicalDate at h
  rcases hl : s.toList with _ | ⟨y1, _ | ⟨y2, _ | ⟨y3, _ | ⟨y4, _ | ⟨s1, _ | ⟨m1,
    _ | ⟨m2, _ | ⟨s2, _ | ⟨d1, _ | ⟨d2, _ | ⟨c, rest⟩⟩⟩⟩⟩⟩⟩⟩⟩⟩⟩ <;>
    rw [hl] at h <;> simp at h
  obtain ⟨⟨⟨⟨⟨⟨⟨⟨⟨h1, h2⟩, h3⟩, h4⟩, h5⟩, h6⟩, h7⟩, h8⟩, h9⟩, h10⟩ := h
  subst h5; subst h8
  exact ⟨y1, y2, y3, y4, m1, m2, d1, d2, rfl, h1, h2, h3, h4, h6, h7, h9, h10⟩

/-- Lexicographic order on canonical `YYYY-MM-DD` strings is the calendar
order. -/
lemma dateVal_lt_of_lexLe {s t : String} (hs : isCanonicalDate s = true)
    (ht : isCanonicalDate t = true) (hle : lexLe s t = true) (hne : s ≠ t) :
    dateVal s < dateVal t := by
  obtain ⟨y1, y2, y3, y4, m1, m2, d1, d2, hl, hy1, hy2, hy3, hy4, hm1, hm2, hd1, hd2⟩ :=
    isCanonicalDate_elim hs
  obtain ⟨z1, z2, z3, z4, n1, n2, e1, e2, hl', hz1, hz2, hz3, hz4, hn1, hn2, he1, he2⟩ :=
    isCanonicalDate_elim ht
  have hvs : dateVal s =
      digitsVal [y1, y2, y3, y4] * 10000 + digitsVal [m1, m2] * 100 + digitsVal [d1, d2] := by
    unfold dateVal; rw [hl]
  have hvt : dateVal t =
      digitsVal [z1, z2, z3, z4] * 10000 + digitsVal [n1, n2] * 100 + digitsVal [e1, e2] := by
    unfold dateVal; rw [hl']
  have hbm : digitsVal [m1, m2] < 100 := by
    have := digitsVal_lt (l := [m1, m2])
      (by intro c hc; simp at hc; rcases hc with rfl | rfl <;> assumption)
    simpa using this
  have hbd : digitsVal [d1, d2] < 100 := by
    have := digitsVal_lt (l := [d1, d2])
      (by intro c hc; simp at hc; rcases hc with rfl | rfl <;> assumption)
    simpa using this
  have hbn : digitsVal [n1, n2] < 100 := by
    have := digitsVal_lt (l := [n1, n2])
      (by intro c hc; simp at hc; rcases hc with rfl | rfl <;> assumption)
    simpa using this
  have hbe : digitsVal [e1, e2] < 100 := by
    have := digitsVal_lt (l := [e1, e2])
      (by intro c hc; simp at hc; rcases hc with rfl | rfl <;> assumption)
    simpa using this
  have hne' : s.toList ≠ t.toList := fun hh => hne (String.toList_inj.mp hh)
  rw [hl, hl'] at hne'
  have hle' : lexLeChars s.toList t.toList = true := hle
  rw [hl, hl'] at hle'
  have hsp1 : ([y1, y2, y3, y4, '-', m1, m2, '-', d1, d2] : List Char) =
      [y1, y2, y3, y4] ++ ('-' :: ([m1, m2] ++ ('-' :: [d1, d2]))) := rfl
  have hsp2 : ([z1, z2, z3, z4, '-', n1, n2, '-', e1, e2] : List Char) =
      [z1, z2, z3, z4] ++ ('-' :: ([n1, n2] ++ ('-' :: [e1, e2]))) := rfl
  rw [hsp1, hsp2, lexLeChars_append _ _ _ _ (by simp)] at hle'
  by_cases hy : ([y1, y2, y3, y4] : List Char) = [z1, z2, z3, z4]
  · simp only [List.cons.injEq, and_true] at hy
    obtain ⟨ey1, ey2, ey3, ey4⟩ := hy
    subst ey1; subst ey2; subst ey3; subst ey4
    rw [if_pos rfl] at hle'
    have hstep : lexLeChars ('-' :: ([m1, m2] ++ ('-' :: [d1, d2])))
        ('-' :: ([n1, n2] ++ ('-' :: [e1, e2]))) =
        lexLeChars ([m1, m2] ++ ('-' :: [d1, d2])) ([n1, n2] ++ ('-' :: [e1, e2])) := by
      simp [lexLeChars]
    rw [hstep, lexLeChars_append _ _ _ _ (by simp)] at hle'
    by_cases hm : ([m1, m2] : List Char) = [n1, n2]
    · simp only [List.cons.injEq, and_true] at hm
      obtain ⟨em1, em2⟩ := hm
      subst em1; subst em2
      rw [if_pos rfl] at hle'
      have hstep2 : lexLeChars ('-' :: [d1, d2]) ('-' :: [e1, e2]) =
          lexLeChars [d1, d2] [e1, e2] := by
        simp [lexLeChars]
      rw [hstep2] at hle'
      have hdne : ([d1, d2] : List Char) ≠ [e1, e2] := by
        intro hh
        simp only [List.cons.injEq, and_true] at hh
        obtain ⟨ed1, ed2⟩ := hh
        subst ed1; subst ed2
        exact hne' rfl
      have hlt := lexLeChars_digits_lt [d1, d2] [e1, e2] (by simp)
        (by intro c hc; simp at hc; rcases hc with rfl | rfl <;> assumption)
        (by intro c hc; simp at hc; rcases hc with rfl | rfl <;> assumption)
        hle' hdne
      omega
    · rw [if_neg hm] at hle'
      have hlt := lexLeChars_digits_lt [m1, m2] [n1, n2] (by simp)
        (by intro c hc; simp at hc; rcases hc with rfl | rfl <;> assumption)
        (by intro c hc; simp at hc; rcases hc with rfl | rfl <;> assumption)
        hle' hm
      omega
  · rw [if_neg hy] at hle'
    have hlt := lexLeChars_digits_lt [y1, y2, y3, y4] [z1, z2, z3, z4] (by simp)
      (by intro c hc; simp at hc; rcases hc with rfl | rfl | rfl | rfl <;> assumption)
      (by intro c hc; simp at hc; rcases hc with rfl | rfl | rfl | rfl <;> assumption)
      hle' hy
    omega

/-! ## Lemmas: sorting -/

lemma mem_insertLe {x z : String} : ∀ l : List String,
    z ∈ insertLe x l ↔ z = x ∨ z ∈ l
  | [] => by simp [insertLe]
  | y :: ys => by
    by_cases h : lexLe x y = true
    · simp [insertLe, h]
    · simp only [insertLe, h, Bool.false_eq_true, if_false, ite_false,
        List.mem_cons, mem_insertLe ys]
      tauto

lemma insertLe_perm (x : String) : ∀ l : List String, (insertLe x l).Perm (x :: l)
  | [] => List.Perm.refl _
  | y :: ys => by
    by_cases h : lexLe x y = true
    · simp [insertLe, h]
    · simp only [insertLe, h, Bool.false_eq_true, if_false, ite_false]
      exact (List.Perm.cons y (insertLe_perm x ys)).trans (List.Perm.swap x y ys)

lemma sortStrings_perm (l : List String) : (sortStrings l).Perm l := by
  induction l with
  | nil => exact List.Perm.refl _
  | cons x xs ih =>
    have : sortStrings (x :: xs) = insertLe x (sortStrings xs) := rfl
    rw [this]
    exact (insertLe_perm x (sortStrings xs)).trans (List.Perm.cons x ih)

lemma mem_sortStrings {z : String} {l : List String} : z ∈ sortStrings l ↔ z ∈ l :=
  (sortStrings_perm l).mem_iff

lemma insertLe_sorted {x : String} : ∀ {l : List String},
    l.Pairwise (fun a b => lexLe a b = true) →
    (insertLe x l).Pairwise (fun a b => lexLe a b = true)
  | [], _ => by simp [insertLe]
  | y :: ys, h => by
    obtain ⟨hy, hys⟩ := List.pairwise_cons.mp h
    by_cases hxy : lexLe x y = true
    · simp only [insertLe, hxy, if_true, ite_true]
      refine List.pairwise_cons.mpr ⟨?_, h⟩
      intro z hz
      rcases List.mem_cons.mp hz with rfl | hz'
      · exact hxy
      · exact lexLe_trans hxy (hy z hz')
    · have hyx : lexLe y x = true := (lexLe_total x y).resolve_left hxy
      simp only [insertLe, hxy, Bool.false_eq_true, if_false, ite_false]
      refine List.pairwise_cons.mpr ⟨?_, insertLe_sorted hys⟩
      intro z hz
      rcases (mem_insertLe ys).mp hz with rfl | hz'
      · exact hyx
      · exact hy z hz'

lemma sortStrings_sorted (l : List String) :
    (sortStrings l).Pairwise (fun a b => lexLe a b = true) := by
  induction l with
  | nil => simp [sortStrings]
  | cons x xs ih => exact insertLe_sorted ih

lemma sortStrings_nodup {l : List String} (h : l.Nodup) : (sortStrings l).Nodup :=
  (sortStrings_perm l).symm.nodup h

/-- A sorted duplicate-free list of canonical dates is strictly ascending by
calendar value. -/
lemma sortStrings_pairwise_dateVal {l : List String} (hn : l.Nodup)
    (hc : ∀ d ∈ l, isCanonicalDate d = true) :
    (sortStrings l).Pairwise (fun a b => dateVal a < dateVal b) := by
  have hsn : (sortStrings l).Nodup := sortStrings_nodup hn
  have hsc : ∀ d ∈ sortStrings l, isCanonicalDate d = true := fun d hd =>
    hc d (mem_sortStrings.mp hd)
  exact ((sortStrings_sorted l).and hsn).imp_of_mem
    (fun {a b} ha hb hab => dateVal_lt_of_lexLe (hsc a ha) (hsc b hb) hab.1 hab.2)

/-! ## Lemmas: distinct-value sets -/

lemma mem_insertSet {x z : String} {s : List String} :
    z ∈ insertSet s x ↔ z ∈ s ∨ z = x := by
  by_cases h : x ∈ s
  · simp only [insertSet, h, if_true, ite_true]
    constructor
    · exact Or.inl
    · rintro (hz | rfl)
      · exact hz
      · exact h
  · simp [insertSet, h]

lemma insertSet_nodup {s : List String} {x : String} (h : s.Nodup) :
    (insertSet s x).Nodup := by
  by_cases hx : x ∈ s
  · simpa [insertSet, hx] using h
  · simp only [insertSet, hx, Bool.false_eq_true, if_false, ite_false]
    exact (List.perm_append_singleton x s).symm.nodup (List.nodup_cons.mpr ⟨hx, h⟩)

/-! ## Lemmas: the date index -/

lemma indexInsert_keys : ∀ (m : List (String × List Incident)) (k : String) (i : Incident),
    (indexInsert m k i).map Prod.fst = insertSet (m.map Prod.fst) k
  | [], k, i => by simp [indexInsert, insertSet]
  | (k', b) :: rest, k, i => by
    by_cases h : k' = k
    · subst h
      simp [indexInsert, insertSet]
    · have hne : ¬ (k' = k) := h
      simp only [indexInsert, hne, if_false, ite_false, List.map_cons,
        indexInsert_keys rest k i]
      by_cases hk : k ∈ rest.map Prod.fst
      · have hmem : k ∈ k' :: rest.map Prod.fst := List.mem_cons_of_mem _ hk
        simp [insertSet, hk, hmem]
      · have hnotin : k ∉ k' :: rest.map Prod.fst := by
          simp only [List.mem_cons]
          rintro (rfl | hmem)
          · exact hne rfl
          · exact hk hmem
        simp [insertSet, hk, hnotin]

lemma indexInsert_totalBuckets :
    ∀ (m : List (String × List Incident)) (k : String) (i : Incident),
    totalBuckets (indexInsert m k i) = totalBuckets m + 1
  | [], k, i => by simp [indexInsert, totalBuckets]
  | (k', b) :: rest, k, i => by
    by_cases h : k' = k
    · have hstep : indexInsert ((k', b) :: rest) k i = (k', b ++ [i]) :: rest := by
        simp [indexInsert, h]
      rw [hstep]
      simp only [totalBuckets, List.map_cons, List.sum_cons, List.length_append,
        List.length_singleton]
      omega
    · simp only [indexInsert, h, if_false, ite_false, totalBuckets, List.map_cons,
        List.sum_cons]
      have := indexInsert_totalBuckets rest k i
      simp only [totalBuckets] at this
      omega

/-- Every record a bucket holds carries the bucket's key as its date,
provided every insertion respected that. -/
lemma indexInsert_dates : ∀ (m : List (String × List Incident)) (k : String) (i : Incident),
    (∀ kv ∈ m, ∀ j ∈ kv.2, j.date = kv.1) → i.date = k →
    ∀ kv ∈ indexInsert m k i, ∀ j ∈ kv.2, j.date = kv.1
  | [], k, i, hm, hi => by
    intro kv hkv j hj
    simp only [indexInsert, List.mem_singleton] at hkv
    subst hkv
    simp only [List.mem_singleton] at hj
    subst hj
    exact hi
  | (k', b) :: rest, k, i, hm, hi => by
    intro kv hkv j hj
    by_cases h : k' = k
    · rw [show indexInsert ((k', b) :: rest) k i =
          ((k', b ++ [i]) :: rest) from by simp [indexInsert, h]] at hkv
      rcases List.mem_cons.mp hkv with heq | hkv'
      · subst heq
        simp only [List.mem_append, List.mem_singleton] at hj
        rcases hj with hj | hj
        · exact hm (k', b) (List.mem_cons_self _ _) j hj
        · subst hj
          rw [hi, h]
      · exact hm kv (List.mem_cons_of_mem _ hkv') j hj
    · rw [show indexInsert ((k', b) :: rest) k i =
          ((k', b) :: indexInsert rest k i) from by simp [indexInsert, h]] at hkv
      rcases List.mem_cons.mp hkv with heq | hkv'
      · subst heq
        exact hm (k', b) (List.mem_cons_self _ _) j hj
      · exact indexInsert_dates rest k i
          (fun kv2 hkv2 => hm kv2 (List.mem_cons_of_mem _ hkv2)) hi kv hkv' j hj

lemma lookupBucket_eq_of_mem :
    ∀ {m : List (String × List Incident)} {k : String} {b : List Incident},
    (m.map Prod.fst).Nodup → (k, b) ∈ m → lookupBucket m k = b := by
  intro m
  induction m with
  | nil => intro k b _ h; simp at h
  | cons kv rest ih =>
    obtain ⟨k', b'⟩ := kv
    intro k b hn hmem
    simp only [List.map_cons, List.nodup_cons] at hn
    obtain ⟨hk', hrest⟩ := hn
    rcases List.mem_cons.mp hmem with heq | hmem'
    · injection heq with h1 h2
      subst h1; subst h2
      simp [lookupBucket]
    · have hne : ¬ (k' = k) := by
        rintro rfl
        exact hk' (List.mem_map.mpr ⟨(k', b), hmem', rfl⟩)
      simp only [lookupBucket, hne, if_false, ite_false]
      exact ih hrest hmem'

lemma lookupBucket_eq_nil_of_not_mem :
    ∀ {m : List (String × List Incident)} {k : String},
    k ∉ m.map Prod.fst → lookupBucket m k = [] := by
  intro m
  induction m with
  | nil => intro k _; rfl
  | cons kv rest ih =>
    obtain ⟨k', b'⟩ := kv
    intro k hk
    simp only [List.map_cons, List.mem_cons] at hk
    push_neg at hk
    obtain ⟨h1, h2⟩ := hk
    have hne : ¬ (k' = k) := fun hh => h1 hh.symm
    simp only [lookupBucket, hne, if_false, ite_false]
    exact ih h2

/-- With duplicate-free keys, looking each key back up returns exactly the
buckets in index order. -/
lemma lookupBucket_map_self {m : List (String × List Incident)}
    (hn : (m.map Prod.fst).Nodup) :
    (m.map Prod.fst).map (lookupBucket m) = m.map Prod.snd := by
  induction m with
  | nil => rfl
  | cons kv rest ih =>
    obtain ⟨k', b'⟩ := kv
    simp only [List.map_cons, List.nodup_cons] at hn
    obtain ⟨hk', hrest⟩ := hn
    simp only [List.map_cons]
    have hhead : lookupBucket ((k', b') :: rest) k' = b' := by simp [lookupBucket]
    rw [hhead]
    have htail : (rest.map Prod.fst).map (lookupBucket ((k', b') :: rest)) =
        (rest.map Prod.fst).map (lookupBucket rest) := by
      apply List.map_congr_left
      intro k hk
      have hne : ¬ (k' = k) := by
        rintro rfl
        exact hk' hk
      simp [lookupBucket, hne]
    rw [htail, ih hrest]

lemma mem_lookupBucket : ∀ {m : List (String × List Incident)} {d : String} {i : Incident},
    i ∈ lookupBucket m d → ∃ kv ∈ m, kv.1 = d ∧ i ∈ kv.2 := by
  intro m
  induction m with
  | nil => intro d i h; simp [lookupBucket] at h
  | cons kv rest ih =>
    obtain ⟨k, b⟩ := kv
    intro d i h
    by_cases hk : k = d
    · rw [show lookupBucket ((k, b) :: rest) d = b from by simp [lookupBucket, hk]] at h
      exact ⟨(k, b), List.mem_cons_self _ _, hk, h⟩
    · rw [show lookupBucket ((k, b) :: rest) d = lookupBucket rest d from by
        simp [lookupBucket, hk]] at h
      obtain ⟨kv, hkv, hd, hi⟩ := ih h
      exact ⟨kv, List.mem_cons_of_mem _ hkv, hd, hi⟩

/-! ## Lemmas: the load fold -/

lemma foldl_loadStep_preserve {P : ProcState → Prop}
    (hstep : ∀ st row, P st → P (loadStep st row)) :
    ∀ (rows : List Row) (st : ProcState), P st → P (rows.foldl loadStep st)
  | [], _, h => h
  | row :: rows, st, h =>
    foldl_loadStep_preserve hstep rows (loadStep st row) (hstep st row h)

lemma load_keys_nodup (rows : List Row) (st : ProcState)
    (h : (st.dateIndex.map Prod.fst).Nodup) :
    ((rows.foldl loadStep st).dateIndex.map Prod.fst).Nodup := by
  refine foldl_loadStep_preserve
    (P := fun st => (st.dateIndex.map Prod.fst).Nodup) ?_ rows st h
  intro st row hst
  show ((indexInsert st.dateIndex (mkIncident row).date (mkIncident row)).map Prod.fst).Nodup
  rw [indexInsert_keys]
  exact insertSet_nodup hst

lemma load_dates_inv (rows : List Row) (st : ProcState)
    (h : ∀ kv ∈ st.dateIndex, ∀ j ∈ kv.2, j.date = kv.1) :
    ∀ kv ∈ (rows.foldl loadStep st).dateIndex, ∀ j ∈ kv.2, j.date = kv.1 := by
  refine foldl_loadStep_preserve
    (P := fun st => ∀ kv ∈ st.dateIndex, ∀ j ∈ kv.2, j.date = kv.1) ?_ rows st h
  intro st row hst
  exact indexInsert_dates st.dateIndex (mkIncident row).date (mkIncident row) hst rfl

lemma load_total_inv (rows : List Row) (st : ProcState)
    (h : totalBuckets st.dateIndex = st.allIncidents.length) :
    totalBuckets (rows.foldl loadStep st).dateIndex =
      (rows.foldl loadStep st).allIncidents.length := by
  refine foldl_loadStep_preserve
    (P := fun st => totalBuckets st.dateIndex = st.allIncidents.length) ?_ rows st h
  intro st row hst
  show totalBuckets (indexInsert st.dateIndex (mkIncident row).date (mkIncident row)) =
    (st.allIncidents ++ [mkIncident row]).length
  rw [indexInsert_totalBuckets, List.length_append, hst]
  rfl

lemma load_types_mono (rows : List Row) (st : ProcState) (x : String)
    (hx : x ∈ st.types) : x ∈ (rows.foldl loadStep st).types := by
  refine foldl_loadStep_preserve (P := fun st => x ∈ st.types) ?_ rows st hx
  intro st row hst
  show x ∈ insertSet st.types (mkIncident row).type
  exact mem_insertSet.mpr (Or.inl hst)

lemma load_types_of_mem : ∀ (rows : List Row) (st : ProcState) (row : Row),
    row ∈ rows → (mkIncident row).type ∈ (rows.foldl loadStep st).types
  | [], _, _, hrow => absurd hrow (List.not_mem_nil _)
  | r :: rs, st, row, hrow => by
    rcases List.mem_cons.mp hrow with rfl | hrow'
    · refine load_types_mono rs (loadStep st row) _ ?_
      show (mkIncident row).type ∈ insertSet st.types (mkIncident row).type
      exact mem_insertSet.mpr (Or.inr rfl)
    · exact load_types_of_mem rs (loadStep st r) row hrow'

/-! ## Lemmas: set folds -/

lemma mem_foldl_insertSet : ∀ (l : List String) (acc : List String) (z : String),
    z ∈ l.foldl insertSet acc ↔ z ∈ acc ∨ z ∈ l
  | [], acc, z => by simp
  | x :: xs, acc, z => by
    rw [List.foldl_cons, mem_foldl_insertSet xs (insertSet acc x) z, mem_insertSet]
    simp only [List.mem_cons]
    tauto

lemma foldl_insertSet_nodup : ∀ (l : List String) (acc : List String),
    acc.Nodup → (l.foldl insertSet acc).Nodup
  | [], _, h => h
  | x :: xs, acc, h =>
    foldl_insertSet_nodup xs (insertSet acc x) (insertSet_nodup h)

/-! ## Lemmas: the filter guards of getIncidents -/

lemma filterBy_eq (f : Incident → String) (v : Option String) (l : List Incident) :
    filterBy f v l = l.filter (fun i => amendedFilterPasses v (f i)) := by
  match v with
  | none => simp [filterBy, amendedFilterPasses]
  | some s =>
    by_cases hs : s = "" ∨ s = "all"
    · simp [filterBy, amendedFilterPasses, hs]
    · simp [filterBy, amendedFilterPasses, hs]

lemma getIncidents_eq_filter (st : ProcState) (d : String) (fl : Filters) :
    getIncidents st d fl = amendedLookupIncidents st d fl := by
  unfold getIncidents amendedLookupIncidents
  rw [filterBy_eq, filterBy_eq, filterBy_eq, List.filter_filter, List.filter_filter]
  apply List.filter_congr
  intro i _
  cases amendedFilterPasses fl.type i.type <;>
    cases amendedFilterPasses fl.category i.category <;>
    cases amendedFilterPasses fl.province i.province <;> rfl

lemma getIncidents_noFilters (st : ProcState) (d : String) :
    getIncidents st d noFilters = lookupBucket st.dateIndex d := rfl

/-! ## Lemmas: generic list counting -/

lemma length_filter_cons {α : Type} (p : α → Bool) (a : α) (l : List α) :
    ((a :: l).filter p).length = (if p a then 1 else 0) + (l.filter p).length := by
  by_cases h : p a = true
  · simp only [List.filter_cons, h, if_true, ite_true, List.length_cons]
    omega
  · have h' : p a = false := by simpa using h
    simp [List.filter_cons, h']

lemma length_filter_split {α : Type} (p : α → Bool) :
    ∀ l : List α, l.length = (l.filter p).length + (l.filter (fun x => ! p x)).length
  | [] => rfl
  | a :: l => by
    have ih := length_filter_split p l
    by_cases h : p a = true
    · simp [List.filter_cons, h, ih]
      omega
    · have h' : p a = false := by simpa using h
      simp [List.filter_cons, h', ih]
      omega

/-! ## Lemmas: radar buckets -/

lemma bump_valid (hh : RadarHist) (n : Int) (h0 : 0 ≤ n) (h24 : n < 24) :
    (bump hh (some n)).sum7 = hh.sum7 + 1 ∧ (bump hh (some n)).other = hh.other := by
  simp only [bump]
  split_ifs <;> simp [RadarHist.sum7] <;> omega

lemma bump_fields (hh : RadarHist) (n : Int) :
    (bump hh (some n)).earlyNight = hh.earlyNight + (if 0 ≤ n ∧ n < 4 then 1 else 0) ∧
    (bump hh (some n)).earlyMorning = hh.earlyMorning + (if 4 ≤ n ∧ n < 9 then 1 else 0) ∧
    (bump hh (some n)).midMorning = hh.midMorning + (if 9 ≤ n ∧ n < 12 then 1 else 0) ∧
    (bump hh (some n)).earlyAfternoon = hh.earlyAfternoon + (if 12 ≤ n ∧ n < 15 then 1 else 0) ∧
    (bump hh (some n)).lateAfternoon = hh.lateAfternoon + (if 15 ≤ n ∧ n < 18 then 1 else 0) ∧
    (bump hh (some n)).evening = hh.evening + (if 18 ≤ n ∧ n < 22 then 1 else 0) ∧
    (bump hh (some n)).lateNight = hh.lateNight + (if 22 ≤ n ∧ n < 24 then 1 else 0) := by
  simp only [bump]
  split_ifs <;> refine ⟨?_, ?_, ?_, ?_, ?_, ?_, ?_⟩ <;> dsimp only <;> omega

lemma radar_fold : ∀ (incidents : List Incident) (acc : RadarHist × RadarHist),
    (∀ i ∈ incidents, i.time ≠ "" →
      ∃ h : Int, hourOf i.time = some h ∧ 0 ≤ h ∧ h < 24) →
    ((incidents.foldl radarStep acc).1.sum7 =
        acc.1.sum7 + (incidents.filter isEA).length) ∧
    ((incidents.foldl radarStep acc).2.sum7 =
        acc.2.sum7 + (incidents.filter isEH).length) ∧
    ((incidents.foldl radarStep acc).1.other = acc.1.other) ∧
    ((incidents.foldl radarStep acc).2.other = acc.2.other)
  | [], acc, _ => by simp
  | i :: rest, acc, hv => by
    have hvrest : ∀ j ∈ rest, j.time ≠ "" →
        ∃ h : Int, hourOf j.time = some h ∧ 0 ≤ h ∧ h < 24 :=
      fun j hj => hv j (List.mem_cons_of_mem _ hj)
    obtain ⟨s1, s2, o1, o2⟩ := radar_fold rest (radarStep acc i) hvrest
    simp only [List.foldl_cons]
    rw [length_filter_cons isEA, length_filter_cons isEH]
    by_cases ht : i.time = ""
    · have hstep : radarStep acc i = acc := by simp [radarStep, ht]
      have hA : isEA i = false := by simp [isEA, ht]
      have hB : isEH i = false := by simp [isEH, ht]
      rw [hstep] at s1 s2 o1 o2
      rw [hstep, hA, hB]
      refine ⟨?_, ?_, o1, o2⟩ <;> simp <;> omega
    · obtain ⟨hr, hhour, h0, h24⟩ := hv i (List.mem_cons_self _ _) ht
      by_cases hEA : i.type = "Enemy Action"
      · have hstep : radarStep acc i = (bump acc.1 (hourOf i.time), acc.2) := by
          simp [radarStep, ht, hEA]
        have hEH : ¬ (i.type = "Explosive Hazard") := by rw [hEA]; decide
        have hA : isEA i = true := by simp [isEA, ht, hEA]
        have hB : isEH i = false := by simp [isEH, hEH]
        have hb := bump_valid acc.1 hr h0 h24
        rw [hstep] at s1 s2 o1 o2
        dsimp only at s1 s2 o1 o2
        rw [hhour] at s1 s2 o1 o2
        rw [hstep, hhour, hA, hB]
        refine ⟨?_, ?_, ?_, o2⟩
        · rw [s1, hb.1]
          simp
          omega
        · rw [s2]
          simp
        · rw [o1, hb.2]
      · by_cases hEH : i.type = "Explosive Hazard"
        · have hstep : radarStep acc i = (acc.1, bump acc.2 (hourOf i.time)) := by
            simp [radarStep, ht, hEA, hEH]
          have hA : isEA i = false := by simp [isEA, hEA]
          have hB : isEH i = true := by simp [isEH, ht, hEH]
          have hb := bump_valid acc.2 hr h0 h24
          rw [hstep] at s1 s2 o1 o2
          dsimp only at s1 s2 o1 o2
          rw [hhour] at s1 s2 o1 o2
          rw [hstep, hhour, hA, hB]
          refine ⟨?_, ?_, o1, ?_⟩
          · rw [s1]
            simp
          · rw [s2, hb.1]
            simp
            omega
          · rw [o2, hb.2]
        · have hstep : radarStep acc i = acc := by simp [radarStep, ht, hEA, hEH]
          have hA : isEA i = false := by simp [isEA, hEA]
          have hB : isEH i = false := by simp [isEH, hEH]
          rw [hstep] at s1 s2 o1 o2
          rw [hstep, hA, hB]
          refine ⟨?_, ?_, o1, o2⟩ <;> simp <;> omega

lemma radar_or_split : ∀ l : List Incident,
    (l.filter isRadarRec).length =
      (l.filter isEA).length + (l.filter isEH).length
  | [] => rfl
  | i :: rest => by
    rw [length_filter_cons, length_filter_cons, length_filter_cons,
      radar_or_split rest]
    by_cases hEA : i.type = "Enemy Action"
    · have hEH : ¬ (i.type = "Explosive Hazard") := by rw [hEA]; decide
      by_cases ht : i.time = ""
      · simp [isEA, isEH, isRadarRec, hEA, hEH, ht] <;> omega
      · simp [isEA, isEH, isRadarRec, hEA, hEH, ht] <;> omega
    · by_cases hEH : i.type = "Explosive Hazard"
      · by_cases ht : i.time = ""
        · simp [isEA, isEH, isRadarRec, hEA, hEH, ht] <;> omega
        · simp [isEA, isEH, isRadarRec, hEA, hEH, ht] <;> omega
      · simp [isEA, isEH, isRadarRec, hEA, hEH] <;> omega

/-! ## Lemmas: treemap -/

lemma bumpCat_keys : ∀ (g : List (String × Nat)) (c : String),
    (bumpCat g c).map Prod.fst = insertSet (g.map Prod.fst) c
  | [], c => by simp [bumpCat, insertSet]
  | (c', n) :: rest, c => by
    by_cases h : c' = c
    · subst h
      simp [bumpCat, insertSet]
    · simp only [bumpCat, h, if_false, ite_false, List.map_cons, bumpCat_keys rest c]
      by_cases hk : c ∈ rest.map Prod.fst
      · have hmem : c ∈ c' :: rest.map Prod.fst := List.mem_cons_of_mem _ hk
        simp [insertSet, hk, hmem]
      · have hnotin : c ∉ c' :: rest.map Prod.fst := by
          simp only [List.mem_cons]
          rintro (rfl | hmem)
          · exact h rfl
          · exact hk hmem
        simp [insertSet, hk, hnotin]

lemma bumpCat_total : ∀ (g : List (String × Nat)) (c : String),
    ((bumpCat g c).map Prod.snd).sum = (g.map Prod.snd).sum + 1
  | [], c => by simp [bumpCat]
  | (c', n) :: rest, c => by
    by_cases h : c' = c
    · simp only [bumpCat, h, if_pos rfl, ite_true, List.map_cons, List.sum_cons]
      omega
    · simp only [bumpCat, h, if_false, ite_false, List.map_cons, List.sum_cons,
        bumpCat_total rest c]
      omega

lemma bumpCat_count : ∀ (g : List (String × Nat)) (c c' : String),
    catCount (bumpCat g c) c' = catCount g c' + (if c' = c then 1 else 0)
  | [], c, c' => by
    by_cases h : c = c'
    · subst h
      simp [bumpCat, catCount]
    · have h' : ¬ (c' = c) := fun hh => h hh.symm
      simp [bumpCat, catCount, h, h']
  | (c'', n) :: rest, c, c' => by
    by_cases h : c'' = c
    · subst h
      by_cases h2 : c'' = c'
      · subst h2
        simp [bumpCat, catCount]
      · have h2' : ¬ (c' = c'') := fun hh => h2 hh.symm
        simp [bumpCat, catCount, h2, h2']
    · simp only [bumpCat, h, if_false, ite_false]
      by_cases h2 : c'' = c'
      · subst h2
        have hcc : ¬ (c'' = c) := h
        simp [catCount, hcc]
      · simp [catCount, h2, bumpCat_count rest c c']

lemma bumpType_keys : ∀ (m : List (String × List (String × Nat))) (t c : String),
    (bumpType m t c).map Prod.fst = insertSet (m.map Prod.fst) t
  | [], t, c => by simp [bumpType, insertSet]
  | (t', g) :: rest, t, c => by
    by_cases h : t' = t
    · subst h
      simp [bumpType, insertSet]
    · simp only [bumpType, h, if_false, ite_false, List.map_cons, bumpType_keys rest t c]
      by_cases hk : t ∈ rest.map Prod.fst
      · have hmem : t ∈ t' :: rest.map Prod.fst := List.mem_cons_of_mem _ hk
        simp [insertSet, hk, hmem]
      · have hnotin : t ∉ t' :: rest.map Prod.fst := by
          simp only [List.mem_cons]
          rintro (rfl | hmem)
          · exact h rfl
          · exact hk hmem
        simp [insertSet, hk, hnotin]

lemma bumpType_total : ∀ (m : List (String × List (String × Nat))) (t c : String),
    treemapTotal (bumpType m t c) = treemapTotal m + 1
  | [], t, c => by simp [bumpType, treemapTotal]
  | (t', g) :: rest, t, c => by
    by_cases h : t' = t
    · simp only [bumpType, h, if_pos rfl, ite_true, treemapTotal, List.map_cons,
        List.sum_cons, bumpCat_total]
      omega
    · simp only [bumpType, h, if_false, ite_false, treemapTotal, List.map_cons,
        List.sum_cons]
      have := bumpType_total rest t c
      simp only [treemapTotal] at this
      omega

lemma bumpType_cats : ∀ (m : List (String × List (String × Nat))) (t c t' : String),
    treemapCats (bumpType m t c) t' =
      if t' = t then insertSet (treemapCats m t') c else treemapCats m t'
  | [], t, c, t' => by
    by_cases h : t' = t
    · subst h
      simp [bumpType, treemapCats, insertSet]
    · have h' : ¬ (t = t') := fun hh => h hh.symm
      simp [bumpType, treemapCats, h, h']
  | (t'', g) :: rest, t, c, t' => by
    by_cases h : t'' = t
    · subst h
      by_cases h2 : t'' = t'
      · subst h2
        simp [bumpType, treemapCats, bumpCat_keys]
      · have h2' : ¬ (t' = t'') := fun hh => h2 hh.symm
        simp [bumpType, treemapCats, h2, h2']
    · simp only [bumpType, h, if_false, ite_false]
      by_cases h2 : t'' = t'
      · subst h2
        simp [bumpType, treemapCats, h]
      · simp only [treemapCats, h2, if_false, ite_false, bumpType_cats rest t c t']

lemma bumpType_count : ∀ (m : List (String × List (String × Nat))) (t c t' c' : String),
    treemapCount (bumpType m t c) t' c' =
      treemapCount m t' c' + (if t' = t ∧ c' = c then 1 else 0)
  | [], t, c, t', c' => by
    by_cases h : t = t'
    · subst h
      by_cases h2 : c = c'
      · subst h2
        simp [bumpType, treemapCount, catCount]
      · have h2' : ¬ (c' = c) := fun hh => h2 hh.symm
        simp [bumpType, treemapCount, catCount, h2, h2']
    · have h' : ¬ (t' = t) := fun hh => h hh.symm
      simp [bumpType, treemapCount, h, h']
  | (t'', g) :: rest, t, c, t', c' => by
    by_cases h : t'' = t
    · subst h
      by_cases h2 : t'' = t'
      · subst h2
        simp only [bumpType, if_pos rfl, ite_true, treemapCount, bumpCat_count]
        by_cases h3 : c' = c
        · simp [h3]
        · simp [h3]
      · have h2' : ¬ (t' = t'') := fun hh => h2 hh.symm
        simp [bumpType, treemapCount, h2, h2']
    · simp only [bumpType, h, if_false, ite_false]
      by_cases h2 : t'' = t'
      · subst h2
        simp [treemapCount, h]
      · simp only [treemapCount, h2, if_false, ite_false, bumpType_count rest t c t' c']

lemma treemap_fold_total : ∀ (l : List Incident) (acc : List (String × List (String × Nat))),
    treemapTotal (l.foldl (fun a i => bumpType a i.type i.category) acc) =
      treemapTotal acc + l.length
  | [], acc => by simp
  | i :: rest, acc => by
    simp only [List.foldl_cons]
    rw [treemap_fold_total rest _, bumpType_total, List.length_cons]
    omega

lemma treemap_fold_keys : ∀ (l : List Incident) (acc : List (String × List (String × Nat))),
    (l.foldl (fun a i => bumpType a i.type i.category) acc).map Prod.fst =
      l.foldl (fun s i => insertSet s i.type) (acc.map Prod.fst)
  | [], _ => rfl
  | i :: rest, acc => by
    simp only [List.foldl_cons]
    rw [treemap_fold_keys rest _, bumpType_keys]

lemma treemap_fold_cats : ∀ (l : List Incident) (acc : List (String × List (String × Nat)))
    (t : String),
    treemapCats (l.foldl (fun a i => bumpType a i.type i.category) acc) t =
      (l.filter (fun i => i.type = t)).foldl (fun s i => insertSet s i.category)
        (treemapCats acc t)
  | [], _, _ => rfl
  | i :: rest, acc, t => by
    simp only [List.foldl_cons, List.filter_cons]
    by_cases h : i.type = t
    · have h' : t = i.type := h.symm
      rw [treemap_fold_cats rest _ t, bumpType_cats, if_pos h']
      simp [h]
    · have h' : ¬ (t = i.type) := fun hh => h hh.symm
      rw [treemap_fold_cats rest _ t, bumpType_cats, if_neg h']
      simp [h]

lemma treemap_fold_count : ∀ (l : List Incident) (acc : List (String × List (String × Nat)))
    (t c : String),
    treemapCount (l.foldl (fun a i => bumpType a i.type i.category) acc) t c =
      treemapCount acc t c + (l.filter (fun i => i.type = t && i.category = c)).length
  | [], _, _, _ => by simp
  | i :: rest, acc, t, c => by
    simp only [List.foldl_cons]
    rw [treemap_fold_count rest _ t c, bumpType_count, length_filter_cons]
    by_cases h1 : i.type = t
    · by_cases h2 : i.category = c
      · simp [h1, h2] <;> omega
      · have h2' : ¬ (c = i.category) := fun hh => h2 hh.symm
        simp [h1, h2, h2'] <;> omega
    · have h1' : ¬ (t = i.type) := fun hh => h1 hh.symm
      by_cases h2 : i.category = c
      · simp [h1, h1', h2] <;> omega
      · have h2' : ¬ (c = i.category) := fun hh => h2 hh.symm
        simp [h1, h1', h2, h2'] <;> omega

/-! ## Lemmas: summing per-date counts -/

lemma filter_eq_length_of_ne {d d' : String} (hne : d' ≠ d) (l : List String) :
    ((l.filter (fun x => ! (x = d))).filter (fun x => x = d')).length =
      (l.filter (fun x => x = d')).length := by
  rw [List.filter_filter]
  apply congrArg List.length
  apply List.filter_congr
  intro x _
  by_cases hx : x = d'
  · subst hx
    simp [hne]
  · simp [hx]

lemma sum_filter_eq_length : ∀ (ds l : List String), ds.Nodup → (∀ x ∈ l, x ∈ ds) →
    (ds.map (fun d => (l.filter (fun x => x = d)).length)).sum = l.length
  | [], l, _, hsub => by
    cases l with
    | nil => simp
    | cons x xs => exact absurd (hsub x (List.mem_cons_self _ _)) (List.not_mem_nil _)
  | d :: ds', l, hn, hsub => by
    simp only [List.map_cons, List.sum_cons]
    obtain ⟨hd, hn'⟩ := List.nodup_cons.mp hn
    have hsplit := length_filter_split (fun x => x = d) l
    have hsub' : ∀ x ∈ l.filter (fun x => ! (x = d)), x ∈ ds' := by
      intro x hx
      obtain ⟨hxl, hxd⟩ := List.mem_filter.mp hx
      rcases List.mem_cons.mp (hsub x hxl) with rfl | h
      · simp at hxd
      · exact h
    have hcong : ds'.map (fun d' => (l.filter (fun x => x = d')).length) =
        ds'.map (fun d' => ((l.filter (fun x => ! (x = d))).filter
          (fun x => x = d')).length) := by
      apply List.map_congr_left
      intro d' hd'
      have hne : d' ≠ d := by
        rintro rfl
        exact hd hd'
      exact (filter_eq_length_of_ne hne l).symm
    rw [hcong, sum_filter_eq_length ds' (l.filter (fun x => ! (x = d))) hn' hsub']
    omega

lemma dateCount_eq_count (incidents : List Incident) (d : String) :
    dateCount incidents d =
      (((incidents.map (fun i => i.date)).filter (fun x => x ≠ "")).filter
        (fun x => x = d)).length := by
  rw [List.filter_filter]
  unfold dateCount
  rw [← List.countP_eq_length_filter, ← List.countP_eq_length_filter, List.countP_map]
  apply List.countP_congr
  intro i _
  by_cases d1 : i.date = d <;> by_cases d2 : i.date = "" <;>
    simp [d1, d2, Function.comp]

/-! ## Lemmas: string shapes for date normalization -/

lemma toList_append (s t : String) : (s ++ t).toList = s.toList ++ t.toList :=
  String.data_append s t

lemma list_len_two : ∀ {l : List Char}, l.length = 2 → ∃ a b, l = [a, b]
  | [a, b], _ => ⟨a, b, rfl⟩
  | [], h => by simp at h
  | [_], h => by simp at h
  | _ :: _ :: _ :: _, h => by simp at h

lemma list_len_four : ∀ {l : List Char}, l.length = 4 → ∃ a b c d, l = [a, b, c, d]
  | [a, b, c, d], _ => ⟨a, b, c, d, rfl⟩
  | [], h => by simp at h
  | [_], h => by simp at h
  | [_, _], h => by simp at h
  | [_, _, _], h => by simp at h
  | _ :: _ :: _ :: _ :: _ :: _, h => by simp at h

lemma padStart2_eq (s : String) (h1 : 1 ≤ s.toList.length) (h2 : s.toList.length ≤ 2) :
    padStart2 s = if s.toList.length = 2 then s else "0" ++ s := by
  by_cases h : s.toList.length = 2
  · rw [if_pos h]
    unfold padStart2
    rw [if_neg (by omega)]
  · have h1' : s.toList.length = 1 := by omega
    rw [if_neg h]
    unfold padStart2
    rw [if_pos (by omega), h1']
    congr 1

lemma padStart2_shape (s : String) (h1 : 1 ≤ s.toList.length) (h2 : s.toList.length ≤ 2)
    (hd : ∀ c ∈ s.toList, isDigitChar c = true) :
    (padStart2 s).toList.length = 2 ∧
      ∀ c ∈ (padStart2 s).toList, isDigitChar c = true := by
  rw [padStart2_eq s h1 h2]
  by_cases h : s.toList.length = 2
  · rw [if_pos h]
    exact ⟨h, hd⟩
  · have h1' : s.toList.length = 1 := by omega
    rw [if_neg h]
    constructor
    · rw [toList_append, List.length_append, h1']
      decide
    · intro c hc
      rw [toList_append] at hc
      rcases List.mem_append.mp hc with hc0 | hcs
      · rcases List.mem_singleton.mp hc0 with rfl
        decide
      · exact hd c hcs

lemma isCanonicalDate_build (y mm dd : String)
    (hy : y.toList.length = 4) (hyd : ∀ c ∈ y.toList, isDigitChar c = true)
    (hm : mm.toList.length = 2) (hmd : ∀ c ∈ mm.toList, isDigitChar c = true)
    (hd : dd.toList.length = 2) (hdd : ∀ c ∈ dd.toList, isDigitChar c = true) :
    isCanonicalDate (y ++ "-" ++ mm ++ "-" ++ dd) = true := by
  obtain ⟨y1, y2, y3, y4, hy'⟩ := list_len_four hy
  obtain ⟨m1, m2, hm'⟩ := list_len_two hm
  obtain ⟨d1, d2, hd'⟩ := list_len_two hd
  have hlist : (y ++ "-" ++ mm ++ "-" ++ dd).toList =
      [y1, y2, y3, y4, '-', m1, m2, '-', d1, d2] := by
    rw [toList_append, toList_append, toList_append, toList_append, hy', hm', hd']
    rfl
  have e1 : isDigitChar y1 = true := hyd y1 (by rw [hy']; simp)
  have e2 : isDigitChar y2 = true := hyd y2 (by rw [hy']; simp)
  have e3 : isDigitChar y3 = true := hyd y3 (by rw [hy']; simp)
  have e4 : isDigitChar y4 = true := hyd y4 (by rw [hy']; simp)
  have e5 : isDigitChar m1 = true := hmd m1 (by rw [hm']; simp)
  have e6 : isDigitChar m2 = true := hmd m2 (by rw [hm']; simp)
  have e7 : isDigitChar d1 = true := hdd d1 (by rw [hd']; simp)
  have e8 : isDigitChar d2 = true := hdd d2 (by rw [hd']; simp)
  unfold isCanonicalDate
  rw [hlist]
  simp [e1, e2, e3, e4, e5, e6, e7, e8]

/-! # Claims -/

/-- **C1.** For every ingested record: a `/`-separated raw date portion in
`M/D/YYYY` form (1-2 digit month and day, 4-digit year) is stored rewritten
to `YYYY-MM-DD` with month and day zero-padded to width 2; a raw date
portion without `/` is stored unchanged; and in both cases covered by the
spec (`/`-separated `M/D/YYYY`, or `-`-separated already-canonical input)
the stored date field matches the `YYYY-MM-DD` 4-2-2 digit pattern. -/
theorem C1_date_normalization (row : Row) :
    (∀ m d y : String,
      jsSplit (rawDatePart row) '/' = [m, d, y] →
      containsChar (rawDatePart row) '/' = true →
      1 ≤ m.toList.length → m.toList.length ≤ 2 →
      (∀ ch ∈ m.toList, isDigitChar ch = true) →
      1 ≤ d.toList.length → d.toList.length ≤ 2 →
      (∀ ch ∈ d.toList, isDigitChar ch = true) →
      y.toList.length = 4 →
      (∀ ch ∈ y.toList, isDigitChar ch = true) →
      (mkIncident row).date =
        y ++ "-" ++ (if m.toList.length = 2 then m else "0" ++ m) ++ "-" ++
          (if d.toList.length = 2 then d else "0" ++ d) ∧
      isCanonicalDate (mkIncident row).date = true) ∧
    (containsChar (rawDatePart row) '/' = false →
      (mkIncident row).date = rawDatePart row ∧
      (isCanonicalDate (rawDatePart row) = true →
        isCanonicalDate (mkIncident row).date = true)) := by
  constructor
  · intro m d y hsplit hcont hm1 hm2 hmd hd1 hd2 hdd hy4 hyd
    have hdate : (mkIncident row).date = formatDate (rawDatePart row) := rfl
    have hfmt : formatDate (rawDatePart row) =
        y ++ "-" ++ padStart2 m ++ "-" ++ padStart2 d := by
      unfold formatDate
      rw [hcont, hsplit]
      simp [List.getD]
    have hpm := padStart2_eq m hm1 hm2
    have hpd := padStart2_eq d hd1 hd2
    have hms := padStart2_shape m hm1 hm2 hmd
    have hds := padStart2_shape d hd1 hd2 hdd
    constructor
    · rw [hdate, hfmt, hpm, hpd]
    · rw [hdate, hfmt]
      exact isCanonicalDate_build y (padStart2 m) (padStart2 d) hy4 hyd
        hms.1 hms.2 hds.1 hds.2
  · intro hcont
    have hdate : (mkIncident row).date = formatDate (rawDatePart row) := rfl
    have hfmt : formatDate (rawDatePart row) = rawDatePart row := by
      unfold formatDate
      rw [hcont]
      simp
    refine ⟨by rw [hdate, hfmt], fun hc => ?_⟩
    rw [hdate, hfmt]
    exact hc

/-- Witness for C1: the `M/D/YYYY` row is stored zero-padded as
`2007-12-05`, and the already-canonical row passes through unchanged; both
match the canonical pattern. -/
theorem C1_witness :
    ((mkIncident rowMDY).date = "2007-12-05" ∧
      isCanonicalDate (mkIncident rowMDY).date = true) ∧
    ((mkIncident rowISO).date = rawDatePart rowISO ∧
      isCanonicalDate (mkIncident rowISO).date = true) := by
  constructor
  · obtain ⟨h1, h2⟩ := (C1_date_normalization rowMDY).1 "12" "5" "2007"
      (by decide) (by decide) (by decide) (by decide) (by decide) (by decide)
      (by decide) (by decide) (by decide) (by decide)
    refine ⟨?_, h2⟩
    rw [h1]
    decide
  · obtain ⟨h1, h2⟩ := (C1_date_normalization rowISO).2 (by decide)
    exact ⟨h1, h2 (by decide)⟩

/-- **C3.** After load, `getDates` is exactly the key set of the date
index, as a sequence strictly ascending by calendar date value with no
duplicates (keys are canonical `YYYY-MM-DD` strings, for which the sort
used by the code coincides with calendar order). -/
theorem C3_listDates_sorted (rows : List Row) (boundary : Option String)
    (hc : ∀ k ∈ (loadData rows boundary).dateIndex.map Prod.fst,
      isCanonicalDate k = true) :
    (getDates (loadData rows boundary)).Pairwise (fun a b => dateVal a < dateVal b) ∧
    (getDates (loadData rows boundary)).Nodup ∧
    (∀ k, k ∈ getDates (loadData rows boundary) ↔
      k ∈ (loadData rows boundary).dateIndex.map Prod.fst) := by
  have hkeys : (loadData rows boundary).dateIndex =
      (rows.foldl loadStep initState).dateIndex := rfl
  have hdates : getDates (loadData rows boundary) =
      sortStrings ((rows.foldl loadStep initState).dateIndex.map Prod.fst) := rfl
  have hnodup : ((rows.foldl loadStep initState).dateIndex.map Prod.fst).Nodup :=
    load_keys_nodup rows initState (by simp [initState])
  rw [hkeys] at hc
  rw [hdates, hkeys]
  exact ⟨sortStrings_pairwise_dateVal hnodup hc, sortStrings_nodup hnodup,
    fun k => mem_sortStrings⟩

/-- Witness for C3: the spec's worked example — three raw rows dated
`12/5/2007`, `2008-01-02`, `12/5/2007` yield the date list
`["2007-12-05", "2008-01-02"]`, which is strictly ascending, duplicate-free
and equal to the index's key set. -/
theorem C3_witness :
    getDates (loadData [rowMDY, rowISO, rowMDY] none) =
      ["2007-12-05", "2008-01-02"] ∧
    (getDates (loadData [rowMDY, rowISO, rowMDY] none)).Pairwise
      (fun a b => dateVal a < dateVal b) ∧
    (getDates (loadData [rowMDY, rowISO, rowMDY] none)).Nodup ∧
    (∀ k, k ∈ getDates (loadData [rowMDY, rowISO, rowMDY] none) ↔
      k ∈ (loadData [rowMDY, rowISO, rowMDY] none).dateIndex.map Prod.fst) := by
  have h := C3_listDates_sorted [rowMDY, rowISO, rowMDY] none (by decide)
  exact ⟨by decide, h.1, h.2.1, h.2.2⟩

/-- **C4 (counterexample to the claim as stated).** A filter whose value is
the empty string is neither absent nor the sentinel `"all"`, so by the
claim it would have to be applied as an equality filter (matching nothing,
since every stored type is non-empty); the code, by JS truthiness, skips it
and returns the whole bucket. -/
theorem C4_counterexample :
    getIncidents (loadData [rowMDY] none) "2007-12-05"
        { type := some "", category := none, province := none } ≠
      specLookupIncidents (loadData [rowMDY] none) "2007-12-05"
        { type := some "", category := none, province := none } := by
  decide

/-- **C4 (amended).** `lookupIncidents` returns the date bucket (the empty
sequence when the date is unknown — not an error) narrowed by equality
filters on type, category and province composed with AND, where a filter
whose value is absent, **empty**, or the sentinel `"all"` is not applied;
the result preserves the bucket's source order (it is a sublist of the
bucket). -/
theorem C4_lookupIncidents (st : ProcState) (d : String) (fl : Filters) :
    getIncidents st d fl = amendedLookupIncidents st d fl ∧
    List.Sublist (getIncidents st d fl) (lookupBucket st.dateIndex d) ∧
    (d ∉ st.dateIndex.map Prod.fst → getIncidents st d fl = []) := by
  refine ⟨getIncidents_eq_filter st d fl, ?_, ?_⟩
  · rw [getIncidents_eq_filter]
    exact List.filter_sublist _
  · intro hd
    rw [getIncidents_eq_filter]
    unfold amendedLookupIncidents
    rw [lookupBucket_eq_nil_of_not_mem hd]
    rfl

/-- Witness for C4 (amended): an unknown date yields the empty sequence,
and a genuine filter narrows a concrete bucket per the amended rule. -/
theorem C4_witness :
    getIncidents (loadData [rowMDY] none) "1999-01-01" noFilters = [] ∧
    getIncidents (loadData [rowMDY, rowEH] none) "2007-12-05"
        { type := some "Enemy Action", category := none, province := none } =
      amendedLookupIncidents (loadData [rowMDY, rowEH] none) "2007-12-05"
        { type := some "Enemy Action", category := none, province := none } := by
  refine ⟨?_, ?_⟩
  · exact (C4_lookupIncidents (loadData [rowMDY] none) "1999-01-01" noFilters).2.2
      (by decide)
  · exact (C4_lookupIncidents (loadData [rowMDY, rowEH] none) "2007-12-05"
      { type := some "Enemy Action", category := none, province := none }).1

/-- **C7.** The date-index buckets keyed by the dates in `listDates()`
partition the full record list: summing the length of the unfiltered lookup
over every listed date gives exactly the length of the full list. -/
theorem C7_lookup_partition (rows : List Row) (boundary : Option String) :
    ((getDates (loadData rows boundary)).map
      (fun d => (getIncidents (loadData rows boundary) d noFilters).length)).sum =
      (loadData rows boundary).allIncidents.length := by
  have hnodup : (((rows.foldl loadStep initState).dateIndex.map Prod.fst)).Nodup :=
    load_keys_nodup rows initState (by simp [initState])
  have htotal := load_total_inv rows initState (by simp [initState, totalBuckets])
  have h1 : getDates (loadData rows boundary) =
      sortStrings ((rows.foldl loadStep initState).dateIndex.map Prod.fst) := rfl
  have h2 : (loadData rows boundary).allIncidents =
      (rows.foldl loadStep initState).allIncidents := rfl
  rw [h1, h2]
  have hperm := (sortStrings_perm
    ((rows.foldl loadStep initState).dateIndex.map Prod.fst)).map
    (fun d => (getIncidents (loadData rows boundary) d noFilters).length)
  rw [hperm.sum_eq]
  have h3 : ((rows.foldl loadStep initState).dateIndex.map Prod.fst).map
      (fun d => (getIncidents (loadData rows boundary) d noFilters).length) =
      (((rows.foldl loadStep initState).dateIndex.map Prod.fst).map
        (lookupBucket (rows.foldl loadStep initState).dateIndex)).map
        List.length := by
    simp only [List.map_map]
    apply List.map_congr_left
    intro kv _
    rfl
  rw [h3, lookupBucket_map_self hnodup, List.map_map, ← htotal]
  rfl

/-- **C9.** Once loaded, every query operation of the engine is a total
function of the loaded state: for every record source (however malformed
its time or date fields) and every argument, each operation returns a
value, and the heatmap's parallel sequences are always aligned. -/
theorem C9_queries_total (rows : List Row) (boundary : Option String)
    (d : String) (fl : Filters) :
    (∃ v, getDates (loadData rows boundary) = v) ∧
    (∃ v, getMetadata (loadData rows boundary) = v) ∧
    (∃ v, getIncidents (loadData rows boundary) d fl = v) ∧
    (∃ v, getTreemapData (loadData rows boundary).allIncidents = v) ∧
    (∃ v, getRadarData (loadData rows boundary).allIncidents = v) ∧
    (∃ v, getHeatmapData (loadData rows boundary).allIncidents = v) ∧
    (∃ v, getBoundary (loadData rows boundary) = v) ∧
    ((getHeatmapData (loadData rows boundary).allIncidents).1.length =
      (getHeatmapData (loadData rows boundary).allIncidents).2.length) := by
  refine ⟨⟨_, rfl⟩, ⟨_, rfl⟩, ⟨_, rfl⟩, ⟨_, rfl⟩, ⟨_, rfl⟩, ⟨_, rfl⟩, ⟨_, rfl⟩, ?_⟩
  simp [getHeatmapData]

/-- **C10.** Ingestion keeps the invariant that every record stored in a
date bucket carries that bucket's key as its date; consequently every
record returned by `lookupIncidents(d, f)` has date `d`. -/
theorem C10_bucket_date_invariant (rows : List Row) (boundary : Option String) :
    (∀ kv ∈ (loadData rows boundary).dateIndex, ∀ i ∈ kv.2, i.date = kv.1) ∧
    (∀ (d : String) (fl : Filters) (i : Incident),
      i ∈ getIncidents (loadData rows boundary) d fl → i.date = d) := by
  have hinv := load_dates_inv rows initState (by simp [initState])
  have hix : (loadData rows boundary).dateIndex =
      (rows.foldl loadStep initState).dateIndex := rfl
  constructor
  · rw [hix]
    exact hinv
  · intro d fl i hi
    rw [getIncidents_eq_filter] at hi
    unfold amendedLookupIncidents at hi
    have hi' := List.mem_of_mem_filter hi
    rw [hix] at hi'
    obtain ⟨kv, hkv, hd, hikv⟩ := mem_lookupBucket hi'
    rw [← hd]
    exact hinv kv hkv i hikv

/-- Witness for C10: a concrete record returned by a concrete lookup
carries the looked-up date. -/
theorem C10_witness : (mkIncident rowMDY).date = "2007-12-05" :=
  (C10_bucket_date_invariant [rowMDY] none).2 "2007-12-05" noFilters
    (mkIncident rowMDY) (by decide)

/-- **C5.** For records whose non-empty time parses to a clock hour below
24, `radarAggregate` partitions exactly the enemy-action and
explosive-hazard records with non-empty time into the seven fixed,
contiguous, non-overlapping buckets `[0,4) [4,9) [9,12) [12,15) [15,18)
[18,22) [22,24)` (the final conjunct pins the bucket boundaries), excludes
records with empty time or any other type from both histograms (`other`
slots stay 0, and the two sums count exactly the matching records), and the
enemy sum plus the explosive sum equals the number of records whose type is
one of the two literals and whose time is non-empty. -/
theorem C5_radarAggregate (incidents : List Incident)
    (hvalid : ∀ i ∈ incidents, i.time ≠ "" → validHour (hourOf i.time) = true) :
    (getRadarData incidents).1.sum7 = (incidents.filter isEA).length ∧
    (getRadarData incidents).2.sum7 = (incidents.filter isEH).length ∧
    (getRadarData incidents).1.sum7 + (getRadarData incidents).2.sum7 =
      (incidents.filter isRadarRec).length ∧
    (getRadarData incidents).1.other = 0 ∧
    (getRadarData incidents).2.other = 0 ∧
    (∀ (hh : RadarHist) (n : Int),
      (bump hh (some n)).earlyNight = hh.earlyNight + (if 0 ≤ n ∧ n < 4 then 1 else 0) ∧
      (bump hh (some n)).earlyMorning = hh.earlyMorning + (if 4 ≤ n ∧ n < 9 then 1 else 0) ∧
      (bump hh (some n)).midMorning = hh.midMorning + (if 9 ≤ n ∧ n < 12 then 1 else 0) ∧
      (bump hh (some n)).earlyAfternoon =
        hh.earlyAfternoon + (if 12 ≤ n ∧ n < 15 then 1 else 0) ∧
      (bump hh (some n)).lateAfternoon =
        hh.lateAfternoon + (if 15 ≤ n ∧ n < 18 then 1 else 0) ∧
      (bump hh (some n)).evening = hh.evening + (if 18 ≤ n ∧ n < 22 then 1 else 0) ∧
      (bump hh (some n)).lateNight = hh.lateNight + (if 22 ≤ n ∧ n < 24 then 1 else 0)) := by
  have hvalid' : ∀ i ∈ incidents, i.time ≠ "" →
      ∃ h : Int, hourOf i.time = some h ∧ 0 ≤ h ∧ h < 24 := by
    intro i hi ht
    have hv := hvalid i hi ht
    cases hcase : hourOf i.time with
    | none => rw [hcase] at hv; simp [validHour] at hv
    | some n =>
      rw [hcase] at hv
      simp only [validHour, Bool.and_eq_true, decide_eq_true_eq] at hv
      exact ⟨n, rfl, hv.1, hv.2⟩
  obtain ⟨s1, s2, o1, o2⟩ := radar_fold incidents (initHist, initHist) hvalid'
  have e1 : (getRadarData incidents).1.sum7 = (incidents.filter isEA).length := by
    have h0 : (initHist, initHist).1.sum7 = 0 := rfl
    rw [getRadarData, s1, h0]
    omega
  have e2 : (getRadarData incidents).2.sum7 = (incidents.filter isEH).length := by
    have h0 : (initHist, initHist).2.sum7 = 0 := rfl
    rw [getRadarData, s2, h0]
    omega
  refine ⟨e1, e2, ?_, ?_, ?_, bump_fields⟩
  · rw [radar_or_split, e1, e2]
  · have h0 : (initHist, initHist).1.other = 0 := rfl
    rw [getRadarData, o1, h0]
  · have h0 : (initHist, initHist).2.other = 0 := rfl
    rw [getRadarData, o2, h0]

/-- Witness for C5: three concrete loaded records (hours 14, 3 and 22; one
enemy action, one unknown type, one explosive hazard) satisfy the
well-formed-time hypothesis, and the histograms count one enemy-action and
one explosive-hazard record, with nothing in the overflow slots. -/
theorem C5_witness :
    (∀ i ∈ (loadData [rowMDY, rowISO, rowEH] none).allIncidents, i.time ≠ "" →
      validHour (hourOf i.time) = true) ∧
    (getRadarData (loadData [rowMDY, rowISO, rowEH] none).allIncidents).1.sum7 =
      ((loadData [rowMDY, rowISO, rowEH] none).allIncidents.filter isEA).length ∧
    (getRadarData (loadData [rowMDY, rowISO, rowEH] none).allIncidents).2.sum7 =
      ((loadData [rowMDY, rowISO, rowEH] none).allIncidents.filter isEH).length ∧
    (getRadarData (loadData [rowMDY, rowISO, rowEH] none).allIncidents).1.sum7 +
        (getRadarData (loadData [rowMDY, rowISO, rowEH] none).allIncidents).2.sum7 =
      ((loadData [rowMDY, rowISO, rowEH] none).allIncidents.filter isRadarRec).length ∧
    (getRadarData (loadData [rowMDY, rowISO, rowEH] none).allIncidents).1.other = 0 ∧
    (getRadarData (loadData [rowMDY, rowISO, rowEH] none).allIncidents).2.other = 0 := by
  have h := C5_radarAggregate (loadData [rowMDY, rowISO, rowEH] none).allIncidents
    (by decide)
  exact ⟨by decide, h.1, h.2.1, h.2.2.1, h.2.2.2.1, h.2.2.2.2.1⟩

/-- **C6.** `treemapAggregate` counts every record once under its
`(type, category)` key: the grand total equals the length of the full list,
groups appear in first-seen type order, categories within a group in
first-seen order within that type, and each stored count is the number of
records with that type and category.  (Stated for type and category names
that are not JS array-index strings, for which `for...in` follows object
insertion order.) -/
theorem C6_treemapAggregate (incidents : List Incident)
    (hkeys : ∀ i ∈ incidents,
      isArrayIndex i.type = false ∧ isArrayIndex i.category = false) :
    treemapTotal (getTreemapData incidents) = incidents.length ∧
    (getTreemapData incidents).map Prod.fst =
      firstSeen (incidents.map (fun i => i.type)) ∧
    (∀ t, treemapCats (getTreemapData incidents) t =
      firstSeen ((incidents.filter (fun i => i.type = t)).map (fun i => i.category))) ∧
    (∀ t c, treemapCount (getTreemapData incidents) t c =
      (incidents.filter (fun i => i.type = t && i.category = c)).length) := by
  refine ⟨?_, ?_, ?_, ?_⟩
  · have h := treemap_fold_total incidents []
    simpa [getTreemapData, treemapTotal] using h
  · have h := treemap_fold_keys incidents []
    rw [show getTreemapData incidents =
      incidents.foldl (fun a i => bumpType a i.type i.category) [] from rfl, h]
    unfold firstSeen
    rw [List.foldl_map]
    rfl
  · intro t
    have h := treemap_fold_cats incidents [] t
    rw [show getTreemapData incidents =
      incidents.foldl (fun a i => bumpType a i.type i.category) [] from rfl, h]
    unfold firstSeen
    rw [List.foldl_map]
    rfl
  · intro t c
    have h := treemap_fold_count incidents [] t c
    rw [show getTreemapData incidents =
      incidents.foldl (fun a i => bumpType a i.type i.category) [] from rfl, h]
    simp [treemapCount]

/-- Witness for C6: on three concrete loaded records (two types, with the
enemy-action type seen first and twice), the treemap counts and orders are
as claimed, and the stored structure is computed explicitly. -/
theorem C6_witness :
    (∀ i ∈ (loadData [rowMDY, rowISO, rowEH] none).allIncidents,
      isArrayIndex i.type = false ∧ isArrayIndex i.category = false) ∧
    treemapTotal (getTreemapData (loadData [rowMDY, rowISO, rowEH] none).allIncidents) =
      (loadData [rowMDY, rowISO, rowEH] none).allIncidents.length ∧
    (getTreemapData (loadData [rowMDY, rowISO, rowEH] none).allIncidents).map Prod.fst =
      firstSeen ((loadData [rowMDY, rowISO, rowEH] none).allIncidents.map
        (fun i => i.type)) ∧
    getTreemapData (loadData [rowMDY, rowISO, rowEH] none).allIncidents =
      [("Enemy Action", [("Direct Fire", 1)]), ("Unknown", [("N/A", 1)]),
        ("Explosive Hazard", [("IED Found/Cleared", 1)])] := by
  have h := C6_treemapAggregate (loadData [rowMDY, rowISO, rowEH] none).allIncidents
    (by decide)
  exact ⟨by decide, h.1, h.2.1, by decide⟩

/-- **C8.** Every classification field whose source value is missing or
empty is replaced by its literal fallback — `"Unknown"` for type and
`"N/A"` for category, targetCategory, target, forceType, city and
province — and a record ingested with absent (or empty) type, having type
`"Unknown"`, contributes `"Unknown"` to the types sequence of
`listMetadata`. -/
theorem C8_field_defaults (row : Row) (rows : List Row) (boundary : Option String) :
    ((row.incidentType = none ∨ row.incidentType = some "") →
      (mkIncident row).type = "Unknown") ∧
    ((row.incidentCategory = none ∨ row.incidentCategory = some "") →
      (mkIncident row).category = "N/A") ∧
    ((row.rowTargetCategory = none ∨ row.rowTargetCategory = some "") →
      (mkIncident row).targetCategory = "N/A") ∧
    ((row.target = none ∨ row.target = some "") →
      (mkIncident row).target = "N/A") ∧
    ((row.force_type = none ∨ row.force_type = some "") →
      (mkIncident row).forceType = "N/A") ∧
    ((row.city = none ∨ row.city = some "") →
      (mkIncident row).city = "N/A") ∧
    ((row.rowProvince = none ∨ row.rowProvince = some "") →
      (mkIncident row).province = "N/A") ∧
    (row ∈ rows → (row.incidentType = none ∨ row.incidentType = some "") →
      "Unknown" ∈ (getMetadata (loadData rows boundary)).1) := by
  have hjs : ∀ (v : Option String) (dflt : String),
      (v = none ∨ v = some "") → jsOr v dflt = dflt := by
    rintro v dflt (rfl | rfl) <;> simp [jsOr]
  refine ⟨fun h => hjs _ _ h, fun h => hjs _ _ h, fun h => hjs _ _ h,
    fun h => hjs _ _ h, fun h => hjs _ _ h, fun h => hjs _ _ h,
    fun h => hjs _ _ h, ?_⟩
  intro hrow htype
  have ht : (mkIncident row).type = "Unknown" := hjs _ _ htype
  have hmem := load_types_of_mem rows initState row hrow
  rw [ht] at hmem
  show "Unknown" ∈ sortStrings (rows.foldl loadStep initState).types
  exact mem_sortStrings.mpr hmem

/-- Witness for C8: the row with absent type and empty category defaults to
`"Unknown"`/`"N/A"`, and `"Unknown"` shows up in the metadata's types. -/
theorem C8_witness :
    (mkIncident rowISO).type = "Unknown" ∧
    (mkIncident rowISO).category = "N/A" ∧
    "Unknown" ∈ (getMetadata (loadData [rowMDY, rowISO] none)).1 := by
  have h := C8_field_defaults rowISO [rowMDY, rowISO] none
  exact ⟨h.1 (Or.inl rfl), h.2.1 (Or.inr rfl),
    h.2.2.2.2.2.2.2 (by decide) (Or.inl rfl)⟩

/-- **C2.** `heatmapAggregate` counts the loaded records per distinct date
and returns two parallel sequences: the distinct dates (every non-empty
date that occurs, and nothing else — zero-incident dates are omitted),
strictly ascending by calendar value with no duplicates, and the counts
aligned by position; the counts sum to the number of loaded records with a
non-empty date.  (Dates are canonical `YYYY-MM-DD` strings or empty, so the
sort used by the code is the calendar order.) -/
theorem C2_heatmapAggregate (incidents : List Incident)
    (hc : ∀ i ∈ incidents, i.date = "" ∨ isCanonicalDate i.date = true) :
    (getHeatmapData incidents).1.Pairwise (fun a b => dateVal a < dateVal b) ∧
    (getHeatmapData incidents).1.Nodup ∧
    (getHeatmapData incidents).2 =
      (getHeatmapData incidents).1.map (dateCount incidents) ∧
    (getHeatmapData incidents).1.length = (getHeatmapData incidents).2.length ∧
    (∀ d, d ∈ (getHeatmapData incidents).1 ↔
      (d ≠ "" ∧ ∃ i ∈ incidents, i.date = d)) ∧
    (∀ d, d ≠ "" → dateCount incidents d =
      (incidents.filter (fun i => i.date = d)).length) ∧
    (getHeatmapData incidents).2.sum =
      (incidents.filter (fun i => i.date ≠ "")).length := by
  have hfst : (getHeatmapData incidents).1 =
      sortStrings ((sortStrings ((incidents.map (fun i => i.date)).filter
        (fun d => d ≠ ""))).foldl insertSet []) := rfl
  have hsnd : (getHeatmapData incidents).2 =
      (getHeatmapData incidents).1.map (dateCount incidents) := rfl
  have hnodupFold : ((sortStrings ((incidents.map (fun i => i.date)).filter
      (fun d => d ≠ ""))).foldl insertSet []).Nodup :=
    foldl_insertSet_nodup _ [] (by simp)
  have hmemFoldL : ∀ d, d ∈ ((sortStrings ((incidents.map (fun i => i.date)).filter
      (fun d => d ≠ ""))).foldl insertSet []) ↔
      d ∈ (incidents.map (fun i => i.date)).filter (fun d => d ≠ "") := by
    intro d
    rw [mem_foldl_insertSet, mem_sortStrings]
    simp
  have hmemL : ∀ d, d ∈ (incidents.map (fun i => i.date)).filter (fun d => d ≠ "") ↔
      (d ≠ "" ∧ ∃ i ∈ incidents, i.date = d) := by
    intro d
    rw [List.mem_filter]
    simp only [List.mem_map, ne_eq, decide_not, Bool.not_eq_true', decide_eq_false_iff_not]
    constructor
    · rintro ⟨⟨i, hi, rfl⟩, hne⟩
      exact ⟨hne, i, hi, rfl⟩
    · rintro ⟨hne, i, hi, rfl⟩
      exact ⟨⟨i, hi, rfl⟩, hne⟩
  have hcanonFold : ∀ d ∈ ((sortStrings ((incidents.map (fun i => i.date)).filter
      (fun d => d ≠ ""))).foldl insertSet []), isCanonicalDate d = true := by
    intro d hd
    obtain ⟨hne, i, hi, hdate⟩ := (hmemL d).mp ((hmemFoldL d).mp hd)
    rcases hc i hi with hempty | hcan
    · rw [hdate] at hempty
      exact absurd hempty hne
    · rw [← hdate]
      exact hcan
  have hmemU : ∀ d, d ∈ (getHeatmapData incidents).1 ↔
      (d ≠ "" ∧ ∃ i ∈ incidents, i.date = d) := by
    intro d
    rw [hfst, mem_sortStrings, hmemFoldL, hmemL]
  have hdc : ∀ d, d ≠ "" → dateCount incidents d =
      (incidents.filter (fun i => i.date = d)).length := by
    intro d hd
    unfold dateCount
    rw [← List.countP_eq_length_filter, ← List.countP_eq_length_filter]
    apply List.countP_congr
    intro i _
    by_cases h : i.date = d
    · simp [h, hd]
    · simp [h]
  refine ⟨?_, ?_, hsnd, ?_, hmemU, hdc, ?_⟩
  · rw [hfst]
    exact sortStrings_pairwise_dateVal hnodupFold hcanonFold
  · rw [hfst]
    exact sortStrings_nodup hnodupFold
  · rw [hsnd]
    simp
  · rw [hsnd]
    have hUnodup : (getHeatmapData incidents).1.Nodup := by
      rw [hfst]
      exact sortStrings_nodup hnodupFold
    have hcong : (getHeatmapData incidents).1.map (dateCount incidents) =
        (getHeatmapData incidents).1.map
          (fun d => (((incidents.map (fun i => i.date)).filter (fun x => x ≠ "")).filter
            (fun x => x = d)).length) := by
      apply List.map_congr_left
      intro d _
      exact dateCount_eq_count incidents d
    rw [hcong, sum_filter_eq_length _ _ hUnodup ?_]
    · rw [← List.countP_eq_length_filter, ← List.countP_eq_length_filter,
        List.countP_map]
      apply List.countP_congr
      intro i _
      simp [Function.comp]
    · intro x hx
      rw [hfst, mem_sortStrings, hmemFoldL]
      exact hx

/-- Witness for C2: three concrete loaded records (two sharing the date
`2007-12-05`, one dated `2008-01-02`) yield the date sequence
`["2007-12-05", "2008-01-02"]` with counts `[2, 1]`, summing to the three
non-empty-date records. -/
theorem C2_witness :
    (∀ i ∈ (loadData [rowMDY, rowISO, rowEH] none).allIncidents,
      i.date = "" ∨ isCanonicalDate i.date = true) ∧
    (getHeatmapData (loadData [rowMDY, rowISO, rowEH] none).allIncidents).1 =
      ["2007-12-05", "2008-01-02"] ∧
    (getHeatmapData (loadData [rowMDY, rowISO, rowEH] none).allIncidents).2 = [2, 1] ∧
    (getHeatmapData (loadData [rowMDY, rowISO, rowEH] none).allIncidents).1.Pairwise
      (fun a b => dateVal a < dateVal b) ∧
    (getHeatmapData (loadData [rowMDY, rowISO, rowEH] none).allIncidents).2.sum =
      ((loadData [rowMDY, rowISO, rowEH] none).allIncidents.filter
        (fun i => i.date ≠ "")).length := by
  have h := C2_heatmapAggregate (loadData [rowMDY, rowISO, rowEH] none).allIncidents
    (by decide)
  exact ⟨by decide, by decide, by decide, h.1, h.2.2.2.2.2.2⟩

end SigActs
